import Mathlib

/-!
Verification of the ACIR builder (`GeneratedAcir`, the terminal lowering pass of the
Noir compiler found in `noirc_evaluator/src/ssa/acir_gen/acir_ir/generated_acir.rs`).

The Rust source is shallowly embedded below: the builder state is a structure, every
`&mut self` method becomes a state-passing function, `u32` arithmetic is `Nat`
arithmetic reduced `% 2^32`, Rust panics (`assert_eq!`, out-of-bounds indexing,
`expect`) are modelled by an explicit `Panic` result, and fallible methods return
`Except`.  The field of coefficients is kept abstract as a commutative ring `F`
(the concrete instantiations used in theorems are `ZMod p`).
-/

set_option linter.unusedSectionVars false
set_option linter.unusedVariables false

namespace AcirGen

/-- A witness identifier (`acvm::native_types::Witness`, a `u32` index). -/
abbrev Witness := Nat

/-- Opaque stack of source spans (`CallStack`); only emptiness and equality matter. -/
abbrev CallStack := List Nat

/-- `acvm` `FunctionInput`: a witness together with its bit size. -/
structure FunctionInput where
  witness : Witness
  num_bits : Nat
deriving DecidableEq, Repr

/-- Location of an opcode: either a direct index in the ACIR opcode stream, or an
index inside the bytecode of an embedded foreign (Brillig) program. -/
inductive OpcodeLocation where
  | acir (index : Nat)
  | brillig (acir_index : Nat) (brillig_index : Nat)
deriving DecidableEq, Repr

/-- Modelled from the spec: `acvm` `Expression`, a degree-≤2 multivariate polynomial
given by quadratic terms, linear terms and a constant (the `acvm` crate is not part
of the sources under verification, so its data model follows §3 of the spec). -/
structure Expression (F : Type) where
  mul_terms : List (F × Witness × Witness)
  linear_combinations : List (F × Witness)
  q_c : F
deriving DecidableEq

variable {F : Type} [CommRing F] [DecidableEq F]

/-- Modelled from the spec: the zero expression (`Expression::default()`). -/
def Expression.zero : Expression F := ⟨[], [], 0⟩

/-- Modelled from the spec: `Expression::one()`. -/
def Expression.one : Expression F := ⟨[], [], 1⟩

/-- Modelled from the spec: `Expression::from(witness)`, the polynomial `1·w + 0`. -/
def Expression.fromWitness (w : Witness) : Expression F := ⟨[], [(1, w)], 0⟩

/-- Modelled from the spec: `Expression::is_linear`, true when there is no quadratic term. -/
def Expression.isLinear (e : Expression F) : Prop := e.mul_terms = []

instance (e : Expression F) : Decidable e.isLinear := by unfold Expression.isLinear; infer_instance

/-- Modelled from the spec: `Expression::is_const`, true when the polynomial is a constant. -/
def Expression.isConst (e : Expression F) : Prop :=
  e.mul_terms = [] ∧ e.linear_combinations = []

instance (e : Expression F) : Decidable e.isConst := by unfold Expression.isConst; infer_instance

/-- Modelled from the spec: `Expression::to_witness` succeeds exactly on `1·w + 0`. -/
def Expression.toWitness (e : Expression F) : Option Witness :=
  match e.mul_terms, e.linear_combinations with
  | [], [(c, w)] => if c = 1 ∧ e.q_c = 0 then some w else none
  | _, _ => none

/-- Modelled from the spec: scalar multiplication `E * c` of an expression by a constant. -/
def Expression.scalarMul (e : Expression F) (c : F) : Expression F :=
  ⟨e.mul_terms.map (fun t => (c * t.1, t.2.1, t.2.2)),
   e.linear_combinations.map (fun t => (c * t.1, t.2)),
   c * e.q_c⟩

/-- Modelled from the spec: addition of two expressions. -/
def Expression.add (a b : Expression F) : Expression F :=
  ⟨a.mul_terms ++ b.mul_terms, a.linear_combinations ++ b.linear_combinations,
   a.q_c + b.q_c⟩

/-- Modelled from the spec: subtraction of two expressions. -/
def Expression.sub (a b : Expression F) : Expression F := a.add (b.scalarMul (-1))

/-- Modelled from the spec: `Expression - Witness` (used by `create_witness_for_expression`). -/
def Expression.subWitness (e : Expression F) (w : Witness) : Expression F :=
  e.sub (Expression.fromWitness w)

/-- Modelled from the spec: `expression.add_mul(c, e)`, that is `expression + c·e`. -/
def Expression.addMul (a : Expression F) (c : F) (b : Expression F) : Expression F :=
  a.add (b.scalarMul c)

/-- Modelled from the spec: multiplication of two expressions, which succeeds only
when the product has degree ≤ 2 (one operand constant, or both linear). -/
def Expression.mul (a b : Expression F) : Option (Expression F) :=
  if a.isConst then some (b.scalarMul a.q_c)
  else if b.isConst then some (a.scalarMul b.q_c)
  else if a.isLinear ∧ b.isLinear then
    some ⟨(a.linear_combinations.map
            (fun s => b.linear_combinations.map (fun t => (s.1 * t.1, s.2, t.2)))).flatten,
          (if b.q_c = 0 then [] else a.linear_combinations.map (fun s => (s.1 * b.q_c, s.2)))
            ++ (if a.q_c = 0 then [] else b.linear_combinations.map (fun t => (a.q_c * t.1, t.2))),
          a.q_c * b.q_c⟩
  else none

/-- Evaluation of an expression under a valuation of the witnesses. -/
def Expression.eval (v : Witness → F) (e : Expression F) : F :=
  (e.mul_terms.map (fun t => t.1 * v t.2.1 * v t.2.2)).sum
    + (e.linear_combinations.map (fun t => t.1 * v t.2)).sum
    + e.q_c

/-- The witnesses occurring in an expression. -/
def Expression.vars (e : Expression F) : List Witness :=
  e.mul_terms.map (fun t => t.2.1) ++ e.mul_terms.map (fun t => t.2.2)
    ++ e.linear_combinations.map (fun t => t.2)

/-- The enumeration of black-box functions (`acvm::BlackBoxFunc`). -/
inductive BlackBoxFunc where
  | AND | XOR | RANGE | SHA256 | Blake2s | Blake3 | SchnorrVerify
  | PedersenCommitment | PedersenHash | EcdsaSecp256k1 | EcdsaSecp256r1
  | FixedBaseScalarMul | EmbeddedCurveAdd | Keccak256 | Keccakf1600
  | RecursiveAggregation | BigIntAdd | BigIntSub | BigIntMul | BigIntDiv
  | BigIntFromLeBytes | BigIntToLeBytes | Poseidon2Permutation | Sha256Compression
deriving DecidableEq, Repr

/-- The constructed black-box call carried by a `BlackBoxFuncCall` opcode, one
variant per function, mirroring the fields filled in by `call_black_box`. -/
inductive BlackBoxFuncCall (F : Type) where
  | AND (lhs rhs : FunctionInput) (output : Witness)
  | XOR (lhs rhs : FunctionInput) (output : Witness)
  | RANGE (input : FunctionInput)
  | SHA256 (inputs : List FunctionInput) (outputs : List Witness)
  | Blake2s (inputs : List FunctionInput) (outputs : List Witness)
  | Blake3 (inputs : List FunctionInput) (outputs : List Witness)
  | SchnorrVerify (public_key_x public_key_y : FunctionInput)
      (signature message : List FunctionInput) (output : Witness)
  | PedersenCommitment (inputs : List FunctionInput) (outputs : Witness × Witness)
      (domain_separator : Nat)
  | PedersenHash (inputs : List FunctionInput) (output : Witness) (domain_separator : Nat)
  | EcdsaSecp256k1 (public_key_x public_key_y signature hashed_message : List FunctionInput)
      (output : Witness)
  | EcdsaSecp256r1 (public_key_x public_key_y signature hashed_message : List FunctionInput)
      (output : Witness)
  | FixedBaseScalarMul (low high : FunctionInput) (outputs : Witness × Witness)
  | EmbeddedCurveAdd (input1_x input1_y input2_x input2_y : FunctionInput)
      (outputs : Witness × Witness)
  | Keccak256VariableLength (inputs : List FunctionInput) (var_message_size : FunctionInput)
      (outputs : List Witness)
  | Keccakf1600 (inputs : List FunctionInput) (outputs : List Witness)
  | RecursiveAggregation (verification_key proof public_inputs : List FunctionInput)
      (key_hash : FunctionInput)
  | BigIntAdd (lhs rhs output : Nat)
  | BigIntSub (lhs rhs output : Nat)
  | BigIntMul (lhs rhs output : Nat)
  | BigIntDiv (lhs rhs output : Nat)
  | BigIntFromLeBytes (inputs : List FunctionInput) (modulus : List Nat) (output : Nat)
  | BigIntToLeBytes (input : Nat) (outputs : List Witness)
  | Poseidon2Permutation (inputs : List FunctionInput) (outputs : List Witness) (len : Nat)
  | Sha256Compression (inputs hash_values : List FunctionInput) (outputs : List Witness)
deriving DecidableEq

/-- Prover-side directives whose outputs are unconstrained hints. -/
inductive Directive (F : Type) where
  | toLeRadix (a : Expression F) (b : List Witness) (radix : Nat)
  | permutationSort (inputs : List (List (Expression F))) (tuple : Nat)
      (bits : List Witness) (sort_by : List Nat)
deriving DecidableEq

/-- Inputs of an embedded Brillig program. -/
inductive BrilligInputs (F : Type) where
  | single (e : Expression F)
  | array (es : List (Expression F))
deriving DecidableEq

/-- Outputs of an embedded Brillig program. -/
inductive BrilligOutputs where
  | simple (w : Witness)
  | array (ws : List Witness)
deriving DecidableEq, Repr

/-- Modelled from the spec: a compiled Brillig artifact (`GeneratedBrillig`).  The
bytecode itself is outside the sources under verification and is kept opaque as a
list of numbers; what matters here is its location and assertion-message maps. -/
structure GeneratedBrillig where
  byte_code : List Nat
  locations : List (Nat × CallStack)
  assert_messages : List (Nat × String)
deriving DecidableEq

/-- An embedded Brillig call opcode (`AcvmBrillig`). -/
structure BrilligOpcode (F : Type) where
  inputs : List (BrilligInputs F)
  outputs : List BrilligOutputs
  bytecode : List Nat
  predicate : Option (Expression F)
deriving DecidableEq

/-- One ACIR opcode: a field-arithmetic assertion, a black-box call, a directive,
or an embedded Brillig program. -/
inductive AcirOpcode (F : Type) where
  | assertZero (e : Expression F)
  | blackBoxFuncCall (c : BlackBoxFuncCall F)
  | directive (d : Directive F)
  | brillig (b : BrilligOpcode F)
deriving DecidableEq

/-- Errors internal to the compiler surfaced by the builder. -/
inductive InternalError where
  | missingArg (name arg : String) (call_stack : CallStack)
deriving DecidableEq

/-- User-facing runtime errors surfaced by the builder. -/
inductive RuntimeError where
  | invalidRangeConstraint (num_bits : Nat) (call_stack : CallStack)
deriving DecidableEq

/-- A Rust panic reachable from the embedded builder methods. -/
inductive PanicMsg where
  | inputArity (name : BlackBoxFunc) (expected got : Nat)
  | outputArity (name : BlackBoxFunc) (expected got : Nat)
  | indexOOB
  | radixNotPow2
  | mulDegree
deriving DecidableEq, Repr

/-- Result of a computation that may panic. -/
inductive Panic (α : Type) where
  | value (a : α)
  | panicked (msg : PanicMsg)
deriving DecidableEq

/-- Sequencing of possibly-panicking computations. -/
def Panic.bind {α β : Type} : Panic α → (α → Panic β) → Panic β
  | .value a, f => f a
  | .panicked m, _ => .panicked m

instance : Monad Panic where
  pure := Panic.value
  bind := Panic.bind

/-- Indexing `l[i]` as in Rust: out of bounds is a panic. -/
def idx {α : Type} (l : List α) (i : Nat) : Panic α :=
  match l[i]? with
  | some a => .value a
  | none => .panicked .indexOOB

/-- Indexing `l[i][j]` as in Rust. -/
def idx2 {α : Type} (l : List (List α)) (i j : Nat) : Panic α :=
  (idx l i).bind fun xs => idx xs j

/-- Extra structure carried by the coefficient field: the bit width of the modulus
(`FieldElement::max_num_bits`) and truncation to the low 128 bits (`to_u128`). -/
class FieldOps (F : Type) where
  maxNumBits : Nat
  toU128 : F → Nat

instance instFieldOpsZMod {p : Nat} [NeZero p] : FieldOps (ZMod p) where
  maxNumBits := Nat.log2 p + 1
  toU128 x := x.val % 2 ^ 128

/-- The builder state (`GeneratedAcir`): the witness allocator's `u32` counter
(`None` while no witness has ever been allocated), the opcode stream, the return
and input witness lists, the location and assertion-message maps, the call stack
stamped onto pushed opcodes, and accumulated warnings. -/
structure GeneratedAcir (F : Type) where
  current_witness_index : Option Nat
  opcodes : List (AcirOpcode F)
  return_witnesses : List Witness
  input_witnesses : List Witness
  locations : List (OpcodeLocation × CallStack)
  call_stack : CallStack
  assert_messages : List (OpcodeLocation × String)
  warnings : List String
  /-- Ghost instrumentation (not a field of the Rust struct): the number of times
  `next_witness_index` has ever been called.  It influences no behaviour and is
  only read by specifications. -/
  total_allocations : Nat

/-- `GeneratedAcir::default()`. -/
def GeneratedAcir.empty : GeneratedAcir F :=
  ⟨none, [], [], [], [], [], [], [], 0⟩

/-- `BTreeMap::insert`: replace the value at an existing key, otherwise append. -/
def insertLoc {β : Type} (m : List (OpcodeLocation × β)) (k : OpcodeLocation) (v : β) :
    List (OpcodeLocation × β) :=
  if m.any (fun p => p.1 = k) then m.map (fun p => if p.1 = k then (k, v) else p)
  else m ++ [(k, v)]

namespace GeneratedAcir

/-- `current_witness_index()`: the most recently allocated witness, or `W 0`. -/
def currentWitnessIndex (st : GeneratedAcir F) : Witness :=
  st.current_witness_index.getD 0

/-- `last_acir_opcode_location()`. -/
def lastAcirOpcodeLocation (st : GeneratedAcir F) : OpcodeLocation :=
  .acir (st.opcodes.length - 1)

/-- `push_opcode`: append the opcode and, when the current call stack is non-empty,
record it against the new opcode's location. -/
def pushOpcode (st : GeneratedAcir F) (op : AcirOpcode F) : GeneratedAcir F :=
  let st' := { st with opcodes := st.opcodes ++ [op] }
  if st'.call_stack.isEmpty then st'
  else { st' with locations := insertLoc st'.locations st'.lastAcirOpcodeLocation st'.call_stack }

/-- `take_opcodes`: return the accumulated opcodes and clear the stream. -/
def takeOpcodes (st : GeneratedAcir F) : List (AcirOpcode F) × GeneratedAcir F :=
  (st.opcodes, { st with opcodes := [] })

/-- `next_witness_index`: advance the `u32` counter (starting it at 0) and return
the new value. -/
def nextWitnessIndex (st : GeneratedAcir F) : Witness × GeneratedAcir F :=
  match st.current_witness_index with
  | some c => ((c + 1) % 2 ^ 32,
      { st with current_witness_index := some ((c + 1) % 2 ^ 32),
                total_allocations := st.total_allocations + 1 })
  | none => (0, { st with current_witness_index := some 0,
                          total_allocations := st.total_allocations + 1 })

/-- `assert_is_zero`: push `AssertZero(expr)`. -/
def assertIsZero (st : GeneratedAcir F) (e : Expression F) : GeneratedAcir F :=
  st.pushOpcode (.assertZero e)

/-- `create_witness_for_expression`: allocate a fresh witness and constrain it to
equal the expression by pushing `AssertZero(expression - fresh_witness)`. -/
def createWitnessForExpression (st : GeneratedAcir F) (e : Expression F) :
    Witness × GeneratedAcir F :=
  let (fresh_witness, st) := st.nextWitnessIndex
  (fresh_witness, st.assertIsZero (e.subWitness fresh_witness))

/-- `get_or_create_witness`: reuse the underlying witness when the expression is
one, otherwise reduce it to a fresh constrained witness. -/
def getOrCreateWitness (st : GeneratedAcir F) (e : Expression F) : Witness × GeneratedAcir F :=
  match e.toWitness with
  | some w => (w, st)
  | none => st.createWitnessForExpression e

/-- `push_return_witness`. -/
def pushReturnWitness (st : GeneratedAcir F) (w : Witness) : GeneratedAcir F :=
  { st with return_witnesses := st.return_witnesses ++ [w] }

/-- `brillig`: push one Brillig opcode and merge the artifact's location and
assertion-message maps, keyed by the index of the just-pushed opcode. -/
def brillig (st : GeneratedAcir F) (predicate : Option (Expression F))
    (generated_brillig : GeneratedBrillig) (inputs : List (BrilligInputs F))
    (outputs : List BrilligOutputs) : GeneratedAcir F :=
  let st := st.pushOpcode (.brillig ⟨inputs, outputs, generated_brillig.byte_code, predicate⟩)
  let st := generated_brillig.locations.foldl
    (fun acc bl =>
      { acc with locations :=
          insertLoc acc.locations (.brillig (acc.opcodes.length - 1) bl.1) bl.2 }) st
  generated_brillig.assert_messages.foldl
    (fun acc bm =>
      { acc with assert_messages :=
          insertLoc acc.assert_messages (.brillig (acc.opcodes.length - 1) bm.1) bm.2 }) st

end GeneratedAcir

/-- Modelled from the spec: `brillig_directive::directive_invert()` lives in the
Brillig generator, outside the sources under verification.  Its bytecode is opaque
and it carries no location or assertion-message entries. -/
def directiveInvert : GeneratedBrillig := ⟨[0], [], []⟩

namespace GeneratedAcir

/-- `brillig_inverse`: allocate a result witness and embed the inversion Brillig
program with predicate `1`; the result is an unconstrained hint. -/
def brilligInverse (st : GeneratedAcir F) (expr : Expression F) : Witness × GeneratedAcir F :=
  let (inverted_witness, st) := st.nextWitnessIndex
  (inverted_witness,
    st.brillig (some Expression.one) directiveInvert [.single expr]
      [.simple inverted_witness])

/-- `is_zero`: return a witness `y` constrained by `AssertZero(t·z + y - 1)` and
`AssertZero(t·y)`, where `t` is a witness handle for the (negated) input and `z`
is the unconstrained inverse hint. -/
def isZero (st : GeneratedAcir F) (t_expr : Expression F) : Witness × GeneratedAcir F :=
  let (t_witness, st) :=
    match t_expr.toWitness with
    | some witness => (witness, st)
    | none => st.getOrCreateWitness (t_expr.scalarMul (-1))
  let (z, st) := st.brilligInverse (Expression.fromWitness t_witness)
  let (y, st) := st.nextWitnessIndex
  let st := st.assertIsZero ⟨[(1, t_witness, z)], [(1, y)], -1⟩
  let st := st.assertIsZero ⟨[(1, t_witness, y)], [], 0⟩
  (y, st)

/-- `is_equal`: `is_zero(lhs - rhs)`. -/
def isEqual (st : GeneratedAcir F) (lhs rhs : Expression F) : Witness × GeneratedAcir F :=
  st.isZero (lhs.sub rhs)

/-- `range_constraint`: error out when `num_bits` reaches the field width, else
push one `RANGE` black-box opcode. -/
def rangeConstraint [FieldOps F] (st : GeneratedAcir F) (witness : Witness) (num_bits : Nat) :
    Except RuntimeError Unit × GeneratedAcir F :=
  if num_bits ≥ FieldOps.maxNumBits F then
    (.error (.invalidRangeConstraint (FieldOps.maxNumBits F) st.call_stack), st)
  else
    (.ok (), st.pushOpcode (.blackBoxFuncCall (.RANGE ⟨witness, num_bits⟩)))

/-- Allocate `n` successive fresh witnesses (`vecmap(0..n, |_| next_witness_index())`). -/
def allocN (st : GeneratedAcir F) : Nat → List Witness × GeneratedAcir F
  | 0 => ([], st)
  | n + 1 =>
    let (w, st) := st.nextWitnessIndex
    let (ws, st) := st.allocN n
    (w :: ws, st)

/-- The limb loop of `radix_le_decompose`: range-constrain each limb and fold it
into the recomposition `composed + pow·limb`, with `pow` tracked exactly. -/
def radixLoop [FieldOps F] (st : GeneratedAcir F) (limbs : List Witness) (bit_size : Nat)
    (radix : Nat) (composed : Expression F) (pow : Nat) :
    Except RuntimeError (Expression F) × GeneratedAcir F :=
  match limbs with
  | [] => (.ok composed, st)
  | l :: rest =>
    match st.rangeConstraint l bit_size with
    | (.error e, st') => (.error e, st')
    | (.ok _, st') =>
      st'.radixLoop rest bit_size radix
        (composed.addMul ((pow : F)) (Expression.fromWitness l)) (pow * radix)

/-- `radix_le_decompose`: assert the radix is the given power of two, allocate the
limb witnesses, emit the `ToLeRadix` directive, range-constrain every limb, and
bind the decomposition with `AssertZero(input - Σ limbᵢ·radixⁱ)`. -/
def radixLeDecompose [FieldOps F] (st : GeneratedAcir F) (input_expr : Expression F)
    (radix limb_count bit_size : Nat) :
    Panic (Except RuntimeError (List Witness) × GeneratedAcir F) :=
  if 2 ^ bit_size ≠ radix then .panicked .radixNotPow2
  else
    let (limb_witnesses, st) := st.allocN limb_count
    let st := st.pushOpcode (.directive (.toLeRadix input_expr limb_witnesses radix))
    match st.radixLoop limb_witnesses bit_size radix Expression.zero 1 with
    | (.error e, st) => .value (.error e, st)
    | (.ok composed_limbs, st) =>
      .value (.ok limb_witnesses, st.assertIsZero (input_expr.sub composed_limbs))

/-- `mul_with_witness`: multiply two expressions within the degree-2 budget,
reducing non-linear operands to witnesses, squaring a single reduction when the
operands are structurally equal. -/
def mulWithWitness (st : GeneratedAcir F) (lhs rhs : Expression F) :
    Panic (Expression F × GeneratedAcir F) :=
  if (lhs.isLinear ∧ rhs.isLinear) ∨ (lhs.isConst ∨ rhs.isConst) then
    match lhs.mul rhs with
    | some prod => .value (prod, st)
    | none => .panicked .mulDegree
  else
    let (lhs_reduced, st) :=
      if lhs.isLinear then (lhs, st)
      else
        let (w, st) := st.getOrCreateWitness lhs
        (Expression.fromWitness w, st)
    if lhs = rhs then
      match lhs_reduced.mul lhs_reduced with
      | some prod => .value (prod, st)
      | none => .panicked .mulDegree
    else
      let (rhs_reduced, st) :=
        if rhs.isLinear then (rhs, st)
        else
          let (w, st) := st.getOrCreateWitness rhs
          (Expression.fromWitness w, st)
      match lhs_reduced.mul rhs_reduced with
      | some prod => .value (prod, st)
      | none => .panicked .mulDegree

end GeneratedAcir

/-- `black_box_func_expected_input_size`: the expected total number of
`FunctionInput`s, `none` for variable-arity functions. -/
def blackBoxFuncExpectedInputSize : BlackBoxFunc → Option Nat
  | .AND | .XOR => some 2
  | .Keccak256 | .SHA256 | .Blake2s | .Blake3
  | .PedersenCommitment | .PedersenHash => none
  | .Keccakf1600 => some 25
  | .Poseidon2Permutation => none
  | .Sha256Compression => some 24
  | .RANGE => some 1
  | .SchnorrVerify | .EcdsaSecp256k1 | .EcdsaSecp256r1 => none
  | .FixedBaseScalarMul => some 2
  | .RecursiveAggregation => none
  | .EmbeddedCurveAdd => some 4
  | .BigIntAdd | .BigIntSub | .BigIntMul | .BigIntDiv | .BigIntToLeBytes => some 0
  | .BigIntFromLeBytes => none

/-- `black_box_expected_output_size`: the expected number of output witnesses,
`none` for variable-arity functions. -/
def blackBoxExpectedOutputSize : BlackBoxFunc → Option Nat
  | .AND | .XOR => some 1
  | .Keccak256 | .SHA256 | .Blake2s | .Blake3 => some 32
  | .Keccakf1600 => some 25
  | .Poseidon2Permutation => none
  | .Sha256Compression => some 8
  | .PedersenCommitment => some 2
  | .PedersenHash => some 1
  | .RANGE => some 0
  | .SchnorrVerify | .EcdsaSecp256k1 | .EcdsaSecp256r1 => some 1
  | .FixedBaseScalarMul | .EmbeddedCurveAdd => some 2
  | .BigIntAdd | .BigIntSub | .BigIntMul | .BigIntDiv | .BigIntFromLeBytes => some 0
  | .BigIntToLeBytes => none
  | .RecursiveAggregation => none

/-- `intrinsics_check_inputs`: `none` when the count matches (or the function has
variable arity), otherwise the panic raised by the failed `assert_eq!`. -/
def intrinsicsCheckInputs (name : BlackBoxFunc) (input_count : Nat) : Option PanicMsg :=
  match blackBoxFuncExpectedInputSize name with
  | none => none
  | some expected =>
    if expected = input_count then none else some (.inputArity name expected input_count)

/-- `intrinsics_check_outputs`: as `intrinsics_check_inputs`, for the output count. -/
def intrinsicsCheckOutputs (name : BlackBoxFunc) (output_count : Nat) : Option PanicMsg :=
  match blackBoxExpectedOutputSize name with
  | none => none
  | some expected =>
    if expected = output_count then none else some (.outputArity name expected output_count)

/-- `to_u128() as u32`. -/
def toU32 [FieldOps F] (x : F) : Nat := FieldOps.toU128 x % 2 ^ 32

/-- `to_u128() as u8`. -/
def toU8 [FieldOps F] (x : F) : Nat := FieldOps.toU128 x % 2 ^ 8

/-- The `match func_name` of `call_black_box`, building the variant-specific call
from the positional input groups, constants, and freshly allocated outputs;
indexing panics out of bounds, and `Keccak256` without any input group is the
`MissingArg("message_size")` internal error. -/
def buildBlackBoxCall [FieldOps F] (cs : CallStack) (func_name : BlackBoxFunc)
    (inputs : List (List FunctionInput)) (constant_inputs constant_outputs : List F)
    (outputs : List Witness) : Panic (Except InternalError (BlackBoxFuncCall F)) :=
  match func_name with
  | .AND =>
    (idx2 inputs 0 0).bind fun l => (idx2 inputs 1 0).bind fun r =>
      (idx outputs 0).bind fun o => .value (.ok (.AND l r o))
  | .XOR =>
    (idx2 inputs 0 0).bind fun l => (idx2 inputs 1 0).bind fun r =>
      (idx outputs 0).bind fun o => .value (.ok (.XOR l r o))
  | .RANGE =>
    (idx2 inputs 0 0).bind fun i => .value (.ok (.RANGE i))
  | .SHA256 =>
    (idx inputs 0).bind fun g => .value (.ok (.SHA256 g outputs))
  | .Blake2s =>
    (idx inputs 0).bind fun g => .value (.ok (.Blake2s g outputs))
  | .Blake3 =>
    (idx inputs 0).bind fun g => .value (.ok (.Blake3 g outputs))
  | .SchnorrVerify =>
    (idx2 inputs 0 0).bind fun px => (idx2 inputs 1 0).bind fun py =>
      (idx inputs 2).bind fun sig => (idx inputs 3).bind fun msg =>
        (idx outputs 0).bind fun o => .value (.ok (.SchnorrVerify px py sig msg o))
  | .PedersenCommitment =>
    (idx inputs 0).bind fun g => (idx outputs 0).bind fun o0 =>
      (idx outputs 1).bind fun o1 => (idx constant_inputs 0).bind fun d =>
        .value (.ok (.PedersenCommitment g (o0, o1) (toU32 d)))
  | .PedersenHash =>
    (idx inputs 0).bind fun g => (idx outputs 0).bind fun o =>
      (idx constant_inputs 0).bind fun d => .value (.ok (.PedersenHash g o (toU32 d)))
  | .EcdsaSecp256k1 =>
    (idx inputs 0).bind fun px => (idx inputs 1).bind fun py =>
      (idx inputs 2).bind fun sig => (idx inputs 3).bind fun hm =>
        (idx outputs 0).bind fun o => .value (.ok (.EcdsaSecp256k1 px py sig hm o))
  | .EcdsaSecp256r1 =>
    (idx inputs 0).bind fun px => (idx inputs 1).bind fun py =>
      (idx inputs 2).bind fun sig => (idx inputs 3).bind fun hm =>
        (idx outputs 0).bind fun o => .value (.ok (.EcdsaSecp256r1 px py sig hm o))
  | .FixedBaseScalarMul =>
    (idx2 inputs 0 0).bind fun lo => (idx2 inputs 1 0).bind fun hi =>
      (idx outputs 0).bind fun o0 => (idx outputs 1).bind fun o1 =>
        .value (.ok (.FixedBaseScalarMul lo hi (o0, o1)))
  | .EmbeddedCurveAdd =>
    (idx2 inputs 0 0).bind fun x1 => (idx2 inputs 1 0).bind fun y1 =>
      (idx2 inputs 2 0).bind fun x2 => (idx2 inputs 3 0).bind fun y2 =>
        (idx outputs 0).bind fun o0 => (idx outputs 1).bind fun o1 =>
          .value (.ok (.EmbeddedCurveAdd x1 y1 x2 y2 (o0, o1)))
  | .Keccak256 =>
    match inputs.getLast? with
    | none => .value (.error (.missingArg "" "message_size" cs))
    | some last_group =>
      (idx last_group 0).bind fun var_message_size =>
        (idx inputs 0).bind fun g =>
          .value (.ok (.Keccak256VariableLength g var_message_size outputs))
  | .Keccakf1600 =>
    (idx inputs 0).bind fun g => .value (.ok (.Keccakf1600 g outputs))
  | .RecursiveAggregation =>
    (idx inputs 0).bind fun vk => (idx inputs 1).bind fun pf =>
      (idx inputs 2).bind fun pub => (idx2 inputs 3 0).bind fun kh =>
        .value (.ok (.RecursiveAggregation vk pf pub kh))
  | .BigIntAdd =>
    (idx constant_inputs 0).bind fun l => (idx constant_inputs 1).bind fun r =>
      (idx constant_outputs 0).bind fun o =>
        .value (.ok (.BigIntAdd (toU32 l) (toU32 r) (toU32 o)))
  | .BigIntSub =>
    (idx constant_inputs 0).bind fun l => (idx constant_inputs 1).bind fun r =>
      (idx constant_outputs 0).bind fun o =>
        .value (.ok (.BigIntSub (toU32 l) (toU32 r) (toU32 o)))
  | .BigIntMul =>
    (idx constant_inputs 0).bind fun l => (idx constant_inputs 1).bind fun r =>
      (idx constant_outputs 0).bind fun o =>
        .value (.ok (.BigIntMul (toU32 l) (toU32 r) (toU32 o)))
  | .BigIntDiv =>
    (idx constant_inputs 0).bind fun l => (idx constant_inputs 1).bind fun r =>
      (idx constant_outputs 0).bind fun o =>
        .value (.ok (.BigIntDiv (toU32 l) (toU32 r) (toU32 o)))
  | .BigIntFromLeBytes =>
    (idx inputs 0).bind fun g => (idx constant_outputs 0).bind fun o =>
      .value (.ok (.BigIntFromLeBytes g (constant_inputs.map toU8) (toU32 o)))
  | .BigIntToLeBytes =>
    (idx constant_inputs 0).bind fun i =>
      .value (.ok (.BigIntToLeBytes (toU32 i) outputs))
  | .Poseidon2Permutation =>
    (idx inputs 0).bind fun g => (idx constant_inputs 0).bind fun len =>
      .value (.ok (.Poseidon2Permutation g outputs (toU32 len)))
  | .Sha256Compression =>
    (idx inputs 0).bind fun g => (idx inputs 1).bind fun h =>
      .value (.ok (.Sha256Compression g h outputs))

namespace GeneratedAcir

/-- `call_black_box`: validate the input and output arities (panicking on a
mismatch), allocate the output witnesses, build the variant-specific call, push
one `BlackBoxFuncCall` opcode and return the outputs; `Keccak256` without any
input group returns the `MissingArg` internal error after the allocation. -/
def callBlackBox [FieldOps F] (st : GeneratedAcir F) (func_name : BlackBoxFunc)
    (inputs : List (List FunctionInput)) (constant_inputs constant_outputs : List F)
    (output_count : Nat) : Panic (Except InternalError (List Witness) × GeneratedAcir F) :=
  let input_count := (inputs.map List.length).sum
  match intrinsicsCheckInputs func_name input_count with
  | some msg => .panicked msg
  | none =>
  match intrinsicsCheckOutputs func_name output_count with
  | some msg => .panicked msg
  | none =>
    let (outputs, st) := st.allocN output_count
    (buildBlackBoxCall st.call_stack func_name inputs constant_inputs constant_outputs
        outputs).bind fun r =>
      match r with
      | .error e => .value (.error e, st)
      | .ok call => .value (.ok outputs, st.pushOpcode (.blackBoxFuncCall call))

end GeneratedAcir

/-- One invocation of a public mutating builder primitive, for quantifying over
"every sequence of Builder operations".  (`permutation` is omitted: its control
bit count goes through `f32` logarithms and is not embedded.) -/
inductive BOp (F : Type) where
  | nextWitness
  | pushOp (op : AcirOpcode F)
  | setCallStack (cs : CallStack)
  | takeOpcodes
  | pushReturnWitness (w : Witness)
  | getOrCreate (e : Expression F)
  | createForExpression (e : Expression F)
  | assertZeroOp (e : Expression F)
  | brilligInverseOp (e : Expression F)
  | isZeroOp (e : Expression F)
  | isEqualOp (a b : Expression F)
  | rangeOp (w : Witness) (n : Nat)
  | radixOp (e : Expression F) (radix limb_count bit_size : Nat)
  | mulOp (a b : Expression F)
  | blackBoxOp (f : BlackBoxFunc) (inputs : List (List FunctionInput))
      (ci co : List F) (oc : Nat)
  | brilligCall (pred : Option (Expression F)) (gb : GeneratedBrillig)
      (ins : List (BrilligInputs F)) (outs : List BrilligOutputs)

/-- Whether an operation is `take_opcodes`. -/
def BOp.isTake : BOp F → Bool
  | .takeOpcodes => true
  | _ => false

/-- Apply one builder operation to the state, discarding return values; a panic
aborts the operation (the state at the panic point is never observed). -/
def runOp [FieldOps F] (st : GeneratedAcir F) : BOp F → GeneratedAcir F
  | .nextWitness => st.nextWitnessIndex.2
  | .pushOp op => st.pushOpcode op
  | .setCallStack cs => { st with call_stack := cs }
  | .takeOpcodes => st.takeOpcodes.2
  | .pushReturnWitness w => st.pushReturnWitness w
  | .getOrCreate e => (st.getOrCreateWitness e).2
  | .createForExpression e => (st.createWitnessForExpression e).2
  | .assertZeroOp e => st.assertIsZero e
  | .brilligInverseOp e => (st.brilligInverse e).2
  | .isZeroOp e => (st.isZero e).2
  | .isEqualOp a b => (st.isEqual a b).2
  | .rangeOp w n => (st.rangeConstraint w n).2
  | .radixOp e r lc bs =>
    match st.radixLeDecompose e r lc bs with
    | .panicked _ => st
    | .value (_, st') => st'
  | .mulOp a b =>
    match st.mulWithWitness a b with
    | .panicked _ => st
    | .value (_, st') => st'
  | .blackBoxOp f ins ci co oc =>
    match st.callBlackBox f ins ci co oc with
    | .panicked _ => st
    | .value (_, st') => st'
  | .brilligCall pred gb ins outs => st.brillig pred gb ins outs

/-- Apply a sequence of builder operations from left to right. -/
def runOps [FieldOps F] (st : GeneratedAcir F) : List (BOp F) → GeneratedAcir F
  | [] => st
  | op :: rest => runOps (runOp st op) rest

/-- An assignment satisfies an opcode: `AssertZero` means the polynomial vanishes,
`RANGE` means the witness value fits in the given number of bits, and all other
opcodes (directives, Brillig hints, backend-defined black boxes) constrain
nothing here. -/
def SatOpcode {p : Nat} [NeZero p] (v : Witness → ZMod p) (op : AcirOpcode (ZMod p)) : Prop :=
  match op with
  | .assertZero e => e.eval v = 0
  | .blackBoxFuncCall (.RANGE input) => (v input.witness).val < 2 ^ input.num_bits
  | _ => True

/-- An assignment satisfies a list of opcodes. -/
def SatAll {p : Nat} [NeZero p] (v : Witness → ZMod p) (ops : List (AcirOpcode (ZMod p))) : Prop :=
  ∀ op ∈ ops, SatOpcode v op

instance {p : Nat} [NeZero p] (v : Witness → ZMod p) (op : AcirOpcode (ZMod p)) :
    Decidable (SatOpcode v op) := by
  unfold SatOpcode
  rcases op with e | c | d | b
  · exact inferInstance
  · rcases c <;> exact inferInstance
  · exact inferInstance
  · exact inferInstance

instance {p : Nat} [NeZero p] (v : Witness → ZMod p) (ops : List (AcirOpcode (ZMod p))) :
    Decidable (SatAll v ops) := by
  unfold SatAll; infer_instance

/-- Little-endian Horner recomposition of limb witnesses in the field:
`Σ limbᵢ · radixⁱ`. -/
def hornerF (v : Witness → F) (radix : Nat) : List Witness → F
  | [] => 0
  | l :: rest => v l + (radix : F) * hornerF v radix rest

/-- Little-endian Horner recomposition over the naturals. -/
def hornerNat (radix : Nat) : List Nat → Nat
  | [] => 0
  | a :: rest => a + radix * hornerNat radix rest

/-- The modulus of the field the compiler instantiates `F` with (the BN254
scalar field). -/
def bn254 : Nat :=
  21888242871839275222246405745257275088548364400416034343698204186575808495617

instance : NeZero bn254 := ⟨by norm_num [bn254]⟩

/-- An assignment placing the low 128 bits of the modulus in limb 0 and its
high bits in limb 1. -/
def vCE : Witness → ZMod bn254 := fun w =>
  if w = 0 then ((bn254 % 2 ^ 128 : Nat) : ZMod bn254)
  else if w = 1 then ((bn254 / 2 ^ 128 : Nat) : ZMod bn254)
  else 0

/-- The `u32` counter value after `k` calls to `next_witness_index`. -/
def ctrOf : Nat → Option Nat
  | 0 => none
  | k + 1 => some (k % 2 ^ 32)

/-- Allocator coherence: the counter is determined by the number of allocations
performed so far. -/
def CtrInv (st : GeneratedAcir F) : Prop :=
  st.current_witness_index = ctrOf st.total_allocations

/-- One builder step in allocator order: the allocation count only grows and
counter coherence is preserved. -/
def AllocStep (st st' : GeneratedAcir F) : Prop :=
  st.total_allocations ≤ st'.total_allocations ∧ (CtrInv st → CtrInv st')

/-- The primitive mutations of the builder, abstracted as hypotheses on a
relation over states; every composite builder operation is a composition of
these, so any invariant closed under them is preserved by every operation. -/
structure PrimSteps (R : GeneratedAcir F → GeneratedAcir F → Prop) : Prop where
  refl : ∀ st, R st st
  trans : ∀ {a b c}, R a b → R b c → R a c
  next : ∀ st : GeneratedAcir F, R st st.nextWitnessIndex.2
  push : ∀ (st : GeneratedAcir F) op, R st (st.pushOpcode op)
  brilligStep : ∀ (st : GeneratedAcir F) p gb ins outs, R st (st.brillig p gb ins outs)
  setCS : ∀ (st : GeneratedAcir F) cs, R st { st with call_stack := cs }
  pushRet : ∀ (st : GeneratedAcir F) w, R st (st.pushReturnWitness w)

/-- The index the next allocation will return: 0 before any allocation,
`c + 1` when the counter holds `c`. -/
def startIdx (st : GeneratedAcir F) : Nat :=
  match st.current_witness_index with
  | none => 0
  | some c => c + 1

instance : Fact (Nat.Prime 5) := ⟨by norm_num⟩

/-- Is the opcode at index `ai` an embedded foreign (Brillig) program? -/
def GeneratedAcir.isBrilligAt (st : GeneratedAcir F) (ai : Nat) : Bool :=
  match st.opcodes[ai]? with
  | some (.brillig _) => true
  | _ => false

/-- Validity of one location key against the current opcode stream: an `Acir i`
key needs `i < opcodes.len()`, a Brillig key needs an embedded foreign-program
opcode at its `acir_index`. -/
def locValid (st : GeneratedAcir F) : OpcodeLocation → Prop
  | .acir i => i < st.opcodes.length
  | .brillig ai _ => st.isBrilligAt ai = true

instance (st : GeneratedAcir F) (loc : OpcodeLocation) : Decidable (locValid st loc) := by
  cases loc <;> (unfold locValid; infer_instance)

/-- Location completeness: every key in the `locations` map refers to a valid
position in the current opcode stream. -/
def LocsValid (st : GeneratedAcir F) : Prop :=
  ∀ p ∈ st.locations, locValid st p.1

instance (st : GeneratedAcir F) : Decidable (LocsValid st) := by
  unfold LocsValid; infer_instance

/-- A possibly-panicking result whose only panic is an out-of-bounds index. -/
def Panic.OnlyOOB {α : Type} : Panic α → Prop
  | .panicked m => m = .indexOOB
  | .value _ => True

namespace GeneratedAcir

lemma pushOpcode_opcodes (st : GeneratedAcir F) (op : AcirOpcode F) :
    (st.pushOpcode op).opcodes = st.opcodes ++ [op] := by
  unfold pushOpcode; dsimp only; split <;> rfl

lemma pushOpcode_ctr (st : GeneratedAcir F) (op : AcirOpcode F) :
    (st.pushOpcode op).current_witness_index = st.current_witness_index := by
  unfold pushOpcode; dsimp only; split <;> rfl

lemma pushOpcode_total (st : GeneratedAcir F) (op : AcirOpcode F) :
    (st.pushOpcode op).total_allocations = st.total_allocations := by
  unfold pushOpcode; dsimp only; split <;> rfl

lemma pushOpcode_call_stack (st : GeneratedAcir F) (op : AcirOpcode F) :
    (st.pushOpcode op).call_stack = st.call_stack := by
  unfold pushOpcode; dsimp only; split <;> rfl

lemma nextWitnessIndex_call_stack (st : GeneratedAcir F) :
    st.nextWitnessIndex.2.call_stack = st.call_stack := by
  unfold nextWitnessIndex; split <;> rfl

lemma nextWitnessIndex_opcodes (st : GeneratedAcir F) :
    st.nextWitnessIndex.2.opcodes = st.opcodes := by
  unfold nextWitnessIndex; split <;> rfl

lemma nextWitnessIndex_locations (st : GeneratedAcir F) :
    st.nextWitnessIndex.2.locations = st.locations := by
  unfold nextWitnessIndex; split <;> rfl

lemma allocN_call_stack (st : GeneratedAcir F) (n : Nat) :
    (st.allocN n).2.call_stack = st.call_stack := by
  induction n generalizing st with
  | zero => rfl
  | succ n ih =>
    show ((st.nextWitnessIndex.2).allocN n).2.call_stack = _
    rw [ih, nextWitnessIndex_call_stack]

lemma allocN_opcodes (st : GeneratedAcir F) (n : Nat) :
    (st.allocN n).2.opcodes = st.opcodes := by
  induction n generalizing st with
  | zero => rfl
  | succ n ih =>
    show ((st.nextWitnessIndex.2).allocN n).2.opcodes = _
    rw [ih, nextWitnessIndex_opcodes]

lemma allocN_length (st : GeneratedAcir F) (n : Nat) :
    (st.allocN n).1.length = n := by
  induction n generalizing st with
  | zero => rfl
  | succ n ih =>
    show (st.nextWitnessIndex.1 :: ((st.nextWitnessIndex.2).allocN n).1).length = _
    rw [List.length_cons, ih]

end GeneratedAcir

lemma AllocStep.refl (st : GeneratedAcir F) : AllocStep st st := ⟨le_rfl, id⟩

lemma AllocStep.of_fields {st st' : GeneratedAcir F}
    (h1 : st'.current_witness_index = st.current_witness_index)
    (h2 : st'.total_allocations = st.total_allocations) : AllocStep st st' :=
  ⟨h2.symm.le, fun h => by unfold CtrInv at *; rw [h1, h2, h]⟩

lemma AllocStep.trans {a b c : GeneratedAcir F} (h1 : AllocStep a b) (h2 : AllocStep b c) :
    AllocStep a c :=
  ⟨h1.1.trans h2.1, fun h => h2.2 (h1.2 h)⟩

/-- A left fold whose steps preserve a projection preserves that projection. -/
lemma foldl_field {α β γ : Type} (f : β → α → β) (proj : β → γ)
    (h : ∀ b a, proj (f b a) = proj b) (l : List α) (b : β) :
    proj (l.foldl f b) = proj b := by
  induction l generalizing b with
  | nil => rfl
  | cons a l ih => rw [List.foldl_cons, ih, h]

namespace GeneratedAcir

lemma nextWitnessIndex_total (st : GeneratedAcir F) :
    st.nextWitnessIndex.2.total_allocations = st.total_allocations + 1 := by
  unfold nextWitnessIndex; split <;> rfl

lemma nextWitnessIndex_spec (st : GeneratedAcir F) (h : CtrInv st) :
    st.nextWitnessIndex.1 = st.total_allocations % 2 ^ 32 ∧ CtrInv st.nextWitnessIndex.2 := by
  unfold CtrInv at h ⊢
  unfold GeneratedAcir.nextWitnessIndex
  rcases hc : st.current_witness_index with _ | c <;> dsimp only <;>
    rcases ht : st.total_allocations with _ | k <;> rw [hc, ht] at h
  · exact ⟨by simp, by simp [ctrOf]⟩
  · exact absurd h (by simp [ctrOf])
  · exact absurd h (by simp [ctrOf])
  · simp only [ctrOf, Option.some.injEq] at h
    subst h
    constructor
    · norm_num
    · simp only [ctrOf, Option.some.injEq]
      norm_num

lemma allocStep_next (st : GeneratedAcir F) : AllocStep st st.nextWitnessIndex.2 :=
  ⟨by rw [nextWitnessIndex_total]; omega, fun h => (st.nextWitnessIndex_spec h).2⟩

lemma allocStep_pushOpcode (st : GeneratedAcir F) (op : AcirOpcode F) :
    AllocStep st (st.pushOpcode op) :=
  AllocStep.of_fields (st.pushOpcode_ctr op) (st.pushOpcode_total op)

lemma brillig_ctr (st : GeneratedAcir F) (p : Option (Expression F)) (gb : GeneratedBrillig)
    (ins : List (BrilligInputs F)) (outs : List BrilligOutputs) :
    (st.brillig p gb ins outs).current_witness_index = st.current_witness_index := by
  unfold brillig
  dsimp only
  refine Eq.trans (foldl_field _ (fun s : GeneratedAcir F => s.current_witness_index) ?_ _ _)
    (Eq.trans (foldl_field _ (fun s : GeneratedAcir F => s.current_witness_index) ?_ _ _)
      (pushOpcode_ctr _ _)) <;>
    exact fun b a => rfl

lemma brillig_total (st : GeneratedAcir F) (p : Option (Expression F)) (gb : GeneratedBrillig)
    (ins : List (BrilligInputs F)) (outs : List BrilligOutputs) :
    (st.brillig p gb ins outs).total_allocations = st.total_allocations := by
  unfold brillig
  dsimp only
  refine Eq.trans (foldl_field _ (fun s : GeneratedAcir F => s.total_allocations) ?_ _ _)
    (Eq.trans (foldl_field _ (fun s : GeneratedAcir F => s.total_allocations) ?_ _ _)
      (pushOpcode_total _ _)) <;>
    exact fun b a => rfl

lemma allocStep_brillig (st : GeneratedAcir F) (p : Option (Expression F))
    (gb : GeneratedBrillig) (ins : List (BrilligInputs F)) (outs : List BrilligOutputs) :
    AllocStep st (st.brillig p gb ins outs) :=
  AllocStep.of_fields (st.brillig_ctr p gb ins outs) (st.brillig_total p gb ins outs)

end GeneratedAcir

variable {R : GeneratedAcir F → GeneratedAcir F → Prop}

lemma PrimSteps.allocN (hR : PrimSteps R) (st : GeneratedAcir F) (n : Nat) :
    R st (st.allocN n).2 := by
  induction n generalizing st with
  | zero => exact hR.refl st
  | succ n ih =>
    show R st ((st.nextWitnessIndex.2).allocN n).2
    exact hR.trans (hR.next st) (ih _)

lemma PrimSteps.createWitness (hR : PrimSteps R) (st : GeneratedAcir F) (e : Expression F) :
    R st (st.createWitnessForExpression e).2 := by
  unfold GeneratedAcir.createWitnessForExpression
  exact hR.trans (hR.next st) (hR.push _ _)

lemma PrimSteps.getOrCreate (hR : PrimSteps R) (st : GeneratedAcir F) (e : Expression F) :
    R st (st.getOrCreateWitness e).2 := by
  unfold GeneratedAcir.getOrCreateWitness
  cases e.toWitness with
  | none => exact hR.createWitness st e
  | some w => exact hR.refl st

lemma PrimSteps.brilligInverse (hR : PrimSteps R) (st : GeneratedAcir F) (e : Expression F) :
    R st (st.brilligInverse e).2 := by
  unfold GeneratedAcir.brilligInverse
  exact hR.trans (hR.next st) (hR.brilligStep _ _ _ _ _)

lemma PrimSteps.isZeroStep (hR : PrimSteps R) (st : GeneratedAcir F) (e : Expression F) :
    R st (st.isZero e).2 := by
  unfold GeneratedAcir.isZero
  dsimp only
  refine hR.trans ?_ (hR.trans (hR.brilligInverse _ _)
    (hR.trans (hR.next _) (hR.trans (hR.push _ _) (hR.push _ _))))
  cases e.toWitness with
  | none => exact hR.getOrCreate st _
  | some w => exact hR.refl st

lemma PrimSteps.rangeStep [FieldOps F] (hR : PrimSteps R) (st : GeneratedAcir F)
    (w : Witness) (n : Nat) : R st (st.rangeConstraint w n).2 := by
  unfold GeneratedAcir.rangeConstraint
  split
  · exact hR.refl st
  · exact hR.push _ _

lemma PrimSteps.radixLoopStep [FieldOps F] (hR : PrimSteps R) (st : GeneratedAcir F)
    (limbs : List Witness) (bs radix : Nat) (c : Expression F) (pw : Nat) :
    R st (st.radixLoop limbs bs radix c pw).2 := by
  induction limbs generalizing st c pw with
  | nil => exact hR.refl st
  | cons l rest ih =>
    unfold GeneratedAcir.radixLoop
    rcases hr : st.rangeConstraint l bs with ⟨res, st'⟩
    have hstep : R st st' := by
      have := hR.rangeStep st l bs
      rw [hr] at this
      exact this
    cases res with
    | error e => exact hstep
    | ok u => exact hR.trans hstep (ih _ _ _)

lemma PrimSteps.radixStep [FieldOps F] (hR : PrimSteps R) (st : GeneratedAcir F)
    (e : Expression F) (r lc bs : Nat)
    {res : Except RuntimeError (List Witness) × GeneratedAcir F}
    (h : st.radixLeDecompose e r lc bs = .value res) : R st res.2 := by
  unfold GeneratedAcir.radixLeDecompose at h
  split at h
  · exact absurd h (by simp)
  · dsimp only at h
    rcases ha : st.allocN lc with ⟨ws, st1⟩
    rw [ha] at h
    dsimp only at h
    have hstep1 : R st st1 := by
      have := hR.allocN st lc
      rw [ha] at this
      exact this
    rcases hl : (st1.pushOpcode (.directive (.toLeRadix e ws r))).radixLoop ws bs r
        Expression.zero 1 with ⟨re, st2⟩
    rw [hl] at h
    have hstep2 : R st st2 := by
      have := hR.radixLoopStep (st1.pushOpcode (.directive (.toLeRadix e ws r))) ws bs r
        Expression.zero 1
      rw [hl] at this
      exact hR.trans (hR.trans hstep1 (hR.push st1 _)) this
    cases re with
    | error er =>
      dsimp only at h
      injection h with h'
      rw [← h']
      exact hstep2
    | ok composed =>
      dsimp only at h
      injection h with h'
      rw [← h']
      exact hR.trans hstep2 (hR.push st2 _)

lemma PrimSteps.mulStep (hR : PrimSteps R) (st : GeneratedAcir F) (a b : Expression F)
    {res : Expression F × GeneratedAcir F}
    (h : st.mulWithWitness a b = .value res) : R st res.2 := by
  unfold GeneratedAcir.mulWithWitness at h
  by_cases h1 : (a.isLinear ∧ b.isLinear) ∨ (a.isConst ∨ b.isConst)
  · rw [if_pos h1] at h
    cases hm : a.mul b with
    | some prod =>
      rw [hm] at h
      injection h with h'
      rw [← h']
      exact hR.refl st
    | none => rw [hm] at h; exact Panic.noConfusion h
  · rw [if_neg h1] at h
    dsimp only at h
    by_cases h2 : a.isLinear
    · rw [if_pos h2] at h
      dsimp only at h
      by_cases h3 : a = b
      · rw [if_pos h3] at h
        cases hm : a.mul a with
        | some prod =>
          rw [hm] at h
          injection h with h'
          rw [← h']
          exact hR.refl st
        | none => rw [hm] at h; exact Panic.noConfusion h
      · rw [if_neg h3] at h
        by_cases h4 : b.isLinear
        · rw [if_pos h4] at h
          dsimp only at h
          cases hm : a.mul b with
          | some prod =>
            rw [hm] at h
            injection h with h'
            rw [← h']
            exact hR.refl st
          | none => rw [hm] at h; exact Panic.noConfusion h
        · rw [if_neg h4] at h
          rcases hgb : st.getOrCreateWitness b with ⟨w2, st2⟩
          rw [hgb] at h
          dsimp only at h
          have hstep : R st st2 := by
            have := hR.getOrCreate st b
            rw [hgb] at this
            exact this
          cases hm : a.mul (Expression.fromWitness w2) with
          | some prod =>
            rw [hm] at h
            injection h with h'
            rw [← h']
            exact hstep
          | none => rw [hm] at h; exact Panic.noConfusion h
    · rw [if_neg h2] at h
      rcases hga : st.getOrCreateWitness a with ⟨w1, st1⟩
      rw [hga] at h
      dsimp only at h
      have hstep1 : R st st1 := by
        have := hR.getOrCreate st a
        rw [hga] at this
        exact this
      by_cases h3 : a = b
      · rw [if_pos h3] at h
        cases hm : (Expression.fromWitness (F := F) w1).mul (Expression.fromWitness w1) with
        | some prod =>
          rw [hm] at h
          injection h with h'
          rw [← h']
          exact hstep1
        | none => rw [hm] at h; exact Panic.noConfusion h
      · rw [if_neg h3] at h
        by_cases h4 : b.isLinear
        · rw [if_pos h4] at h
          dsimp only at h
          cases hm : (Expression.fromWitness (F := F) w1).mul b with
          | some prod =>
            rw [hm] at h
            injection h with h'
            rw [← h']
            exact hstep1
          | none => rw [hm] at h; exact Panic.noConfusion h
        · rw [if_neg h4] at h
          rcases hgb : st1.getOrCreateWitness b with ⟨w2, st2⟩
          rw [hgb] at h
          dsimp only at h
          have hstep2 : R st1 st2 := by
            have := hR.getOrCreate st1 b
            rw [hgb] at this
            exact this
          cases hm : (Expression.fromWitness (F := F) w1).mul (Expression.fromWitness w2) with
          | some prod =>
            rw [hm] at h
            injection h with h'
            rw [← h']
            exact hR.trans hstep1 hstep2
          | none => rw [hm] at h; exact Panic.noConfusion h

lemma PrimSteps.blackBoxStep [FieldOps F] (hR : PrimSteps R) (st : GeneratedAcir F)
    (f : BlackBoxFunc) (ins : List (List FunctionInput)) (ci co : List F) (oc : Nat)
    {res : Except InternalError (List Witness) × GeneratedAcir F}
    (h : st.callBlackBox f ins ci co oc = .value res) : R st res.2 := by
  unfold GeneratedAcir.callBlackBox at h
  dsimp only at h
  split at h
  · exact absurd h (by simp)
  · split at h
    · exact absurd h (by simp)
    · rcases ha : st.allocN oc with ⟨ws, st1⟩
      rw [ha] at h
      dsimp only at h
      have hstep1 : R st st1 := by
        have := hR.allocN st oc
        rw [ha] at this
        exact this
      cases hb : buildBlackBoxCall st1.call_stack f ins ci co ws with
      | panicked m =>
        rw [hb] at h
        exact absurd h (by simp [Panic.bind])
      | value r =>
        rw [hb] at h
        simp only [Panic.bind] at h
        cases r with
        | error er =>
          injection h with h'
          rw [← h']
          exact hstep1
        | ok call =>
          injection h with h'
          rw [← h']
          exact hR.trans hstep1 (hR.push st1 _)

/-- A relation closed under the primitive steps is preserved by every builder
operation (with a side condition for `take_opcodes`). -/
lemma PrimSteps.runOpStep [FieldOps F] (hR : PrimSteps R) (st : GeneratedAcir F) (op : BOp F)
    (hop : R st st.takeOpcodes.2 ∨ op.isTake = false) : R st (runOp st op) := by
  cases op with
  | takeOpcodes =>
    rcases hop with h | h
    · exact h
    · exact absurd h (by simp [BOp.isTake])
  | nextWitness => exact hR.next st
  | pushOp o => exact hR.push st o
  | setCallStack cs => exact hR.setCS st cs
  | pushReturnWitness w => exact hR.pushRet st w
  | getOrCreate e => exact hR.getOrCreate st e
  | createForExpression e => exact hR.createWitness st e
  | assertZeroOp e => exact hR.push st _
  | brilligInverseOp e => exact hR.brilligInverse st e
  | isZeroOp e => exact hR.isZeroStep st e
  | isEqualOp a b => exact hR.isZeroStep st _
  | rangeOp w n => exact hR.rangeStep st w n
  | brilligCall p gb ins outs => exact hR.brilligStep st p gb ins outs
  | radixOp e r lc bs =>
    cases hres : st.radixLeDecompose e r lc bs with
    | panicked m =>
      simp only [runOp, hres]
      exact hR.refl st
    | value res =>
      have hs := hR.radixStep st e r lc bs hres
      rcases res with ⟨r', st'⟩
      simp only [runOp, hres]
      exact hs
  | mulOp a b =>
    cases hres : st.mulWithWitness a b with
    | panicked m =>
      simp only [runOp, hres]
      exact hR.refl st
    | value res =>
      have hs := hR.mulStep st a b hres
      rcases res with ⟨r', st'⟩
      simp only [runOp, hres]
      exact hs
  | blackBoxOp f ins ci co oc =>
    cases hres : st.callBlackBox f ins ci co oc with
    | panicked m =>
      simp only [runOp, hres]
      exact hR.refl st
    | value res =>
      have hs := hR.blackBoxStep st f ins ci co oc hres
      rcases res with ⟨r', st'⟩
      simp only [runOp, hres]
      exact hs

lemma PrimSteps.runOpsStep [FieldOps F] (hR : PrimSteps R) (st : GeneratedAcir F)
    (ops : List (BOp F))
    (hops : ∀ op ∈ ops, op.isTake = false ∨ ∀ s : GeneratedAcir F, R s s.takeOpcodes.2) :
    R st (runOps st ops) := by
  induction ops generalizing st with
  | nil => exact hR.refl st
  | cons op rest ih =>
    refine hR.trans (hR.runOpStep st op ?_) (ih _ (fun o ho => hops o (List.mem_cons_of_mem _ ho)))
    rcases hops op (List.mem_cons_self _ _) with h | h
    · exact Or.inr h
    · exact Or.inl (h st)

/-- `AllocStep` is closed under all primitive builder steps. -/
lemma allocPrimSteps : PrimSteps (AllocStep (F := F)) where
  refl := AllocStep.refl
  trans := fun h1 h2 => h1.trans h2
  next := GeneratedAcir.allocStep_next
  push := GeneratedAcir.allocStep_pushOpcode
  brilligStep := GeneratedAcir.allocStep_brillig
  setCS := fun st cs => AllocStep.of_fields rfl rfl
  pushRet := fun st w => AllocStep.of_fields rfl rfl

lemma runOps_append [FieldOps F] (st : GeneratedAcir F) (l1 l2 : List (BOp F)) :
    runOps st (l1 ++ l2) = runOps (runOps st l1) l2 := by
  induction l1 generalizing st with
  | nil => rfl
  | cons op rest ih => exact ih (runOp st op)

lemma allocStep_runOps [FieldOps F] (st : GeneratedAcir F) (ops : List (BOp F)) :
    AllocStep st (runOps st ops) :=
  allocPrimSteps.runOpsStep st ops
    (fun op _ => Or.inr (fun s => AllocStep.of_fields rfl rfl))

lemma ctrInv_empty : CtrInv (GeneratedAcir.empty (F := F)) := rfl

lemma ctrInv_runOps [FieldOps F] (ops : List (BOp F)) :
    CtrInv (runOps (GeneratedAcir.empty (F := F)) ops) :=
  (allocStep_runOps _ ops).2 ctrInv_empty

lemma sum_map_scaled {α : Type} (l : List α) (f : α → F) (c : F) :
    (l.map (fun x => c * f x)).sum = c * (l.map f).sum := by
  induction l with
  | nil => simp
  | cons a t ih => simp [ih, mul_add]

lemma Expression.eval_scalarMul (e : Expression F) (c : F) (v : Witness → F) :
    (e.scalarMul c).eval v = c * e.eval v := by
  unfold Expression.eval Expression.scalarMul
  dsimp only
  rw [List.map_map, List.map_map]
  have hm : ((fun t : F × Witness × Witness => t.1 * v t.2.1 * v t.2.2) ∘
      (fun t : F × Witness × Witness => (c * t.1, t.2.1, t.2.2))) =
      fun t : F × Witness × Witness => c * (t.1 * v t.2.1 * v t.2.2) := by
    funext t
    dsimp
    ring
  have hl : ((fun t : F × Witness => t.1 * v t.2) ∘
      (fun t : F × Witness => (c * t.1, t.2))) =
      fun t : F × Witness => c * (t.1 * v t.2) := by
    funext t
    dsimp
    ring
  rw [hm, hl, sum_map_scaled, sum_map_scaled]
  ring

lemma Expression.eval_add (a b : Expression F) (v : Witness → F) :
    (a.add b).eval v = a.eval v + b.eval v := by
  unfold Expression.eval Expression.add
  dsimp only
  rw [List.map_append, List.map_append, List.sum_append, List.sum_append]
  ring

lemma Expression.eval_sub (a b : Expression F) (v : Witness → F) :
    (a.sub b).eval v = a.eval v - b.eval v := by
  unfold Expression.sub
  rw [Expression.eval_add, Expression.eval_scalarMul]
  ring

lemma Expression.eval_fromWitness (w : Witness) (v : Witness → F) :
    (Expression.fromWitness (F := F) w).eval v = v w := by
  simp [Expression.eval, Expression.fromWitness]

lemma Expression.eval_subWitness (e : Expression F) (w : Witness) (v : Witness → F) :
    (e.subWitness w).eval v = e.eval v - v w := by
  unfold Expression.subWitness
  rw [Expression.eval_sub, Expression.eval_fromWitness]

lemma Expression.eval_addMul (a : Expression F) (c : F) (b : Expression F) (v : Witness → F) :
    (a.addMul c b).eval v = a.eval v + c * b.eval v := by
  unfold Expression.addMul
  rw [Expression.eval_add, Expression.eval_scalarMul]

lemma Expression.eval_congr {e : Expression F} {v v' : Witness → F}
    (h : ∀ w ∈ e.vars, v w = v' w) : e.eval v = e.eval v' := by
  unfold Expression.eval
  have hm : e.mul_terms.map (fun t => t.1 * v t.2.1 * v t.2.2) =
      e.mul_terms.map (fun t => t.1 * v' t.2.1 * v' t.2.2) := by
    refine List.map_congr_left ?_
    intro t ht
    rw [h t.2.1 (by unfold Expression.vars; exact List.mem_append.mpr (Or.inl
          (List.mem_append.mpr (Or.inl (List.mem_map_of_mem _ ht))))),
      h t.2.2 (by unfold Expression.vars; exact List.mem_append.mpr (Or.inl
          (List.mem_append.mpr (Or.inr (List.mem_map_of_mem _ ht)))))]
  have hl : e.linear_combinations.map (fun t => t.1 * v t.2) =
      e.linear_combinations.map (fun t => t.1 * v' t.2) := by
    refine List.map_congr_left ?_
    intro t ht
    rw [h t.2 (by unfold Expression.vars; exact List.mem_append.mpr (Or.inr
        (List.mem_map_of_mem _ ht)))]
  rw [hm, hl]

lemma Expression.vars_scalarMul (e : Expression F) (c : F) :
    (e.scalarMul c).vars = e.vars := by
  unfold Expression.vars Expression.scalarMul
  simp only [List.map_map]
  rfl

lemma Expression.toWitness_some {e : Expression F} {w : Witness}
    (h : e.toWitness = some w) :
    e.mul_terms = [] ∧ e.linear_combinations = [(1, w)] ∧ e.q_c = 0 := by
  obtain ⟨mt, lc, qc⟩ := e
  cases mt with
  | cons a l => exact absurd h (by simp [Expression.toWitness])
  | nil =>
    rcases lc with _ | ⟨⟨c, w'⟩, rest⟩
    · exact absurd h (by simp [Expression.toWitness])
    · cases rest with
      | cons b l => exact absurd h (by simp [Expression.toWitness])
      | nil =>
        unfold Expression.toWitness at h
        dsimp only at h
        split at h
        · rename_i hc
          injection h with h'
          subst h'
          exact ⟨rfl, by rw [hc.1], hc.2⟩
        · cases h

/-- The two-constraint protocol of `is_zero`, algebraically: with `z`
existentially chosen by the prover, `t·z + y − 1 = 0 ∧ t·y = 0` is satisfiable
iff `y = 1 ∧ t = 0` or `y = 0 ∧ t ≠ 0`. -/
lemma is_zero_core {K : Type} [Field K] (tv yv : K) :
    (∃ zv, tv * zv + yv - 1 = 0 ∧ tv * yv = 0) ↔
      ((yv = 1 ∧ tv = 0) ∨ (yv = 0 ∧ tv ≠ 0)) := by
  constructor
  · rintro ⟨zv, h1, h2⟩
    by_cases ht : tv = 0
    · left
      refine ⟨?_, ht⟩
      rw [ht] at h1
      linear_combination h1
    · right
      rcases mul_eq_zero.mp h2 with h | h
      · exact absurd h ht
      · exact ⟨h, ht⟩
  · rintro (⟨hy, ht⟩ | ⟨hy, ht⟩)
    · exact ⟨0, by rw [hy, ht]; ring, by rw [hy, ht]; ring⟩
    · refine ⟨tv⁻¹, ?_, by rw [hy]; ring⟩
      rw [hy, mul_inv_cancel₀ ht]
      ring

namespace GeneratedAcir

lemma nextWitnessIndex_startIdx (st : GeneratedAcir F) (h : startIdx st < 2 ^ 32) :
    st.nextWitnessIndex.1 = startIdx st ∧ startIdx st.nextWitnessIndex.2 = startIdx st + 1 := by
  unfold startIdx at h ⊢
  unfold nextWitnessIndex
  rcases hc : st.current_witness_index with _ | c
  all_goals rw [hc] at h
  all_goals dsimp only at h ⊢
  · exact ⟨rfl, rfl⟩
  · rw [Nat.mod_eq_of_lt (by omega)]
    exact ⟨rfl, rfl⟩

lemma brillig_opcodes (st : GeneratedAcir F) (p : Option (Expression F)) (gb : GeneratedBrillig)
    (ins : List (BrilligInputs F)) (outs : List BrilligOutputs) :
    (st.brillig p gb ins outs).opcodes =
      st.opcodes ++ [.brillig ⟨ins, outs, gb.byte_code, p⟩] := by
  unfold brillig
  dsimp only
  refine Eq.trans (foldl_field _ (fun s : GeneratedAcir F => s.opcodes) ?_ _ _)
    (Eq.trans (foldl_field _ (fun s : GeneratedAcir F => s.opcodes) ?_ _ _)
      (pushOpcode_opcodes _ _)) <;>
    exact fun b a => rfl

lemma startIdx_pushOpcode (st : GeneratedAcir F) (op : AcirOpcode F) :
    startIdx (st.pushOpcode op) = startIdx st := by
  unfold startIdx
  rw [st.pushOpcode_ctr op]

lemma startIdx_brillig (st : GeneratedAcir F) (p : Option (Expression F))
    (gb : GeneratedBrillig) (ins : List (BrilligInputs F)) (outs : List BrilligOutputs) :
    startIdx (st.brillig p gb ins outs) = startIdx st := by
  unfold startIdx
  rw [st.brillig_ctr p gb ins outs]

/-- Shape of `is_zero` when the input (or its negation) is already the witness
`w`: it allocates the inverse hint `z = startIdx` and the result `y = startIdx
+ 1`, and emits the Brillig inversion call followed by `AssertZero(w·z + y - 1)`
and `AssertZero(w·y)`. -/
lemma isZero_desc_reuse (st : GeneratedAcir F) (e : Expression F) (w : Witness)
    (htw : e.toWitness = some w ∨
      (e.toWitness = none ∧ (e.scalarMul (-1)).toWitness = some w))
    (h : startIdx st + 2 ≤ 2 ^ 32) :
    (st.isZero e).1 = startIdx st + 1
    ∧ (st.isZero e).2.opcodes = st.opcodes ++
        [.brillig ⟨[.single (Expression.fromWitness w)], [.simple (startIdx st)],
            directiveInvert.byte_code, some Expression.one⟩,
         .assertZero ⟨[(1, w, startIdx st)], [(1, startIdx st + 1)], -1⟩,
         .assertZero ⟨[(1, w, startIdx st + 1)], [], 0⟩] := by
  have hz := st.nextWitnessIndex_startIdx (by omega)
  have hred : (match e.toWitness with
      | some witness => (witness, st)
      | none => st.getOrCreateWitness (e.scalarMul (-1))) = (w, st) := by
    rcases htw with h1 | ⟨h1, h2⟩
    · rw [h1]
    · rw [h1]
      dsimp only
      unfold getOrCreateWitness
      rw [h2]
  unfold isZero
  rw [hred]
  dsimp only
  unfold brilligInverse
  dsimp only
  set st1 := st.nextWitnessIndex.2 with hst1
  set stB := st1.brillig (some Expression.one) directiveInvert
    [.single (Expression.fromWitness w)] [.simple st.nextWitnessIndex.1] with hstB
  have hsB : startIdx stB = startIdx st + 1 := by
    rw [hstB, st1.startIdx_brillig, hst1, hz.2]
  have hy := stB.nextWitnessIndex_startIdx (by omega)
  constructor
  · rw [hy.1, hsB]
  · unfold assertIsZero
    rw [hy.1, hsB, pushOpcode_opcodes, pushOpcode_opcodes, nextWitnessIndex_opcodes, hstB,
      st1.brillig_opcodes, hst1, nextWitnessIndex_opcodes, hz.1]
    simp

/-- Shape of `is_zero` when the input must be reduced: it allocates the handle
`t = startIdx` (constrained to `−E`), the inverse hint `z = startIdx + 1` and
the result `y = startIdx + 2`, and emits the reduction `AssertZero(−E − t)`, the
Brillig inversion call, `AssertZero(t·z + y − 1)` and `AssertZero(t·y)`. -/
lemma isZero_desc_fresh (st : GeneratedAcir F) (e : Expression F)
    (htw : e.toWitness = none) (htw2 : (e.scalarMul (-1)).toWitness = none)
    (h : startIdx st + 3 ≤ 2 ^ 32) :
    (st.isZero e).1 = startIdx st + 2
    ∧ (st.isZero e).2.opcodes = st.opcodes ++
        [.assertZero ((e.scalarMul (-1)).subWitness (startIdx st)),
         .brillig ⟨[.single (Expression.fromWitness (startIdx st))],
            [.simple (startIdx st + 1)], directiveInvert.byte_code, some Expression.one⟩,
         .assertZero ⟨[(1, startIdx st, startIdx st + 1)], [(1, startIdx st + 2)], -1⟩,
         .assertZero ⟨[(1, startIdx st, startIdx st + 2)], [], 0⟩] := by
  have ht := st.nextWitnessIndex_startIdx (by omega)
  unfold isZero
  rw [htw]
  dsimp only
  unfold getOrCreateWitness
  rw [htw2]
  unfold createWitnessForExpression
  dsimp only
  set st1 := st.nextWitnessIndex.2 with hst1
  set st2 := st1.assertIsZero ((e.scalarMul (-1)).subWitness st.nextWitnessIndex.1) with hst2
  have hs2 : startIdx st2 = startIdx st + 1 := by
    rw [hst2]
    unfold assertIsZero
    rw [st1.startIdx_pushOpcode, hst1, ht.2]
  have hz := st2.nextWitnessIndex_startIdx (by omega)
  unfold brilligInverse
  dsimp only
  set st3 := st2.nextWitnessIndex.2 with hst3
  set stB := st3.brillig (some Expression.one) directiveInvert
    [.single (Expression.fromWitness st.nextWitnessIndex.1)]
    [.simple st2.nextWitnessIndex.1] with hstB
  have hsB : startIdx stB = startIdx st + 2 := by
    rw [hstB, st3.startIdx_brillig, hst3, hz.2, hs2]
  have hy := stB.nextWitnessIndex_startIdx (by omega)
  constructor
  · rw [hy.1, hsB]
  · rw [hy.1, hsB, hz.1, hs2]
    unfold assertIsZero
    rw [pushOpcode_opcodes, pushOpcode_opcodes, nextWitnessIndex_opcodes, hstB]
    rw [hz.1, hs2]
    rw [st3.brillig_opcodes, hst3, nextWitnessIndex_opcodes, hst2]
    unfold assertIsZero
    rw [pushOpcode_opcodes, hst1, nextWitnessIndex_opcodes, ht.1]
    simp

end GeneratedAcir

lemma isZero_sat_reuse {p : Nat} [Fact (Nat.Prime p)] (st : GeneratedAcir (ZMod p))
    (e : Expression (ZMod p)) (w : Witness) (v0 : Witness → ZMod p) (yval : ZMod p)
    (hw : e.toWitness = some w ∨
      (e.toWitness = none ∧ (e.scalarMul (-1)).toWitness = some w))
    (hc : ∃ c : ZMod p, c ≠ 0 ∧ ∀ vv : Witness → ZMod p, e.eval vv = c * vv w)
    (hwv : w ∈ e.vars)
    (hvars : ∀ u ∈ e.vars, u < startIdx st)
    (hroom : startIdx st + 3 ≤ 2 ^ 32) :
    (∃ v : Witness → ZMod p,
        (∀ u ∈ e.vars, v u = v0 u) ∧ v (st.isZero e).1 = yval ∧
        SatAll v ((st.isZero e).2.opcodes.drop st.opcodes.length))
    ↔ ((yval = 1 ∧ e.eval v0 = 0) ∨ (yval = 0 ∧ e.eval v0 ≠ 0)) := by
  obtain ⟨c, hc0, hcv⟩ := hc
  obtain ⟨hy, hops⟩ := st.isZero_desc_reuse e w hw (by omega)
  rw [hy, hops, List.drop_left]
  set s := startIdx st with hs
  have hws : w < s := hvars w hwv
  have heval1 : ∀ v : Witness → ZMod p,
      Expression.eval v ⟨[(1, w, s)], [(1, s + 1)], -1⟩ = v w * v s + v (s + 1) - 1 := by
    intro v
    simp [Expression.eval]
    ring
  have heval2 : ∀ v : Witness → ZMod p,
      Expression.eval v ⟨[(1, w, s + 1)], [], 0⟩ = v w * v (s + 1) := by
    intro v
    simp [Expression.eval]
  constructor
  · rintro ⟨v, hagree, hyv, hsat⟩
    have h1 := hsat (.assertZero ⟨[(1, w, s)], [(1, s + 1)], -1⟩) (by simp)
    have h2 := hsat (.assertZero ⟨[(1, w, s + 1)], [], 0⟩) (by simp)
    simp only [SatOpcode] at h1 h2
    rw [heval1 v] at h1
    rw [heval2 v] at h2
    rw [hyv] at h1 h2
    have hvw0 : v w = v0 w := hagree w hwv
    rcases (is_zero_core (v w) yval).mp ⟨v s, h1, h2⟩ with ⟨hy1, ht0⟩ | ⟨hy0, htne⟩
    · left
      refine ⟨hy1, ?_⟩
      rw [hcv v0, ← hvw0, ht0, mul_zero]
    · right
      refine ⟨hy0, ?_⟩
      rw [hcv v0, ← hvw0]
      exact mul_ne_zero hc0 htne
  · intro hrhs
    have key : ∀ zv : ZMod p, v0 w * zv + yval - 1 = 0 → v0 w * yval = 0 →
        (∃ v : Witness → ZMod p,
          (∀ u ∈ e.vars, v u = v0 u) ∧ v (s + 1) = yval ∧
          SatAll v [.brillig ⟨[.single (Expression.fromWitness w)], [.simple s],
              directiveInvert.byte_code, some Expression.one⟩,
            .assertZero ⟨[(1, w, s)], [(1, s + 1)], -1⟩,
            .assertZero ⟨[(1, w, s + 1)], [], 0⟩]) := by
      intro zv hz1 hz2
      have hws1 : w ≠ s + 1 := Nat.ne_of_lt (Nat.lt_succ_of_lt hws)
      have hws0 : w ≠ s := Nat.ne_of_lt hws
      have hss : s ≠ s + 1 := Nat.ne_of_lt (Nat.lt_succ_self s)
      set v := Function.update (Function.update v0 s zv) (s + 1) yval with hv
      have e1 : v w = v0 w := by
        rw [hv, Function.update_noteq hws1, Function.update_noteq hws0]
      have e2 : v s = zv := by
        rw [hv, Function.update_noteq hss, Function.update_same]
      have e3 : v (s + 1) = yval := by
        rw [hv, Function.update_same]
      refine ⟨v, ?_, e3, ?_⟩
      · intro u hu
        have hus : u < s := hvars u hu
        have hu1 : u ≠ s + 1 := Nat.ne_of_lt (Nat.lt_succ_of_lt hus)
        have hu0 : u ≠ s := Nat.ne_of_lt hus
        rw [hv, Function.update_noteq hu1, Function.update_noteq hu0]
      · intro op hop
        simp only [List.mem_cons, List.not_mem_nil, or_false] at hop
        rcases hop with rfl | rfl | rfl
        · trivial
        · show Expression.eval v ⟨[(1, w, s)], [(1, s + 1)], -1⟩ = 0
          rw [heval1 v, e1, e2, e3]
          exact hz1
        · show Expression.eval v ⟨[(1, w, s + 1)], [], 0⟩ = 0
          rw [heval2 v, e1, e3]
          exact hz2
    rcases hrhs with ⟨hy1, he0⟩ | ⟨hy0, hne⟩
    · have hw0 : v0 w = 0 := by
        have h' : c * v0 w = 0 := by rw [← hcv v0]; exact he0
        rcases mul_eq_zero.mp h' with h | h
        · exact absurd h hc0
        · exact h
      exact key 0 (by rw [hw0, hy1]; ring) (by rw [hw0]; ring)
    · have hwne : v0 w ≠ 0 := fun h0 => hne (by rw [hcv v0, h0, mul_zero])
      exact key (v0 w)⁻¹ (by rw [mul_inv_cancel₀ hwne, hy0]; ring) (by rw [hy0]; ring)

lemma isZero_sat_fresh {p : Nat} [Fact (Nat.Prime p)] (st : GeneratedAcir (ZMod p))
    (e : Expression (ZMod p)) (v0 : Witness → ZMod p) (yval : ZMod p)
    (htw : e.toWitness = none) (htw2 : (e.scalarMul (-1)).toWitness = none)
    (hvars : ∀ u ∈ e.vars, u < startIdx st)
    (hroom : startIdx st + 3 ≤ 2 ^ 32) :
    (∃ v : Witness → ZMod p,
        (∀ u ∈ e.vars, v u = v0 u) ∧ v (st.isZero e).1 = yval ∧
        SatAll v ((st.isZero e).2.opcodes.drop st.opcodes.length))
    ↔ ((yval = 1 ∧ e.eval v0 = 0) ∨ (yval = 0 ∧ e.eval v0 ≠ 0)) := by
  obtain ⟨hy, hops⟩ := st.isZero_desc_fresh e htw htw2 hroom
  rw [hy, hops, List.drop_left]
  set s := startIdx st with hs
  have heval0 : ∀ v : Witness → ZMod p,
      Expression.eval v ((e.scalarMul (-1)).subWitness s) = -(e.eval v) - v s := by
    intro v
    rw [Expression.eval_subWitness, Expression.eval_scalarMul]
    ring
  have heval1 : ∀ v : Witness → ZMod p,
      Expression.eval v ⟨[(1, s, s + 1)], [(1, s + 2)], -1⟩ =
        v s * v (s + 1) + v (s + 2) - 1 := by
    intro v
    simp [Expression.eval]
    ring
  have heval2 : ∀ v : Witness → ZMod p,
      Expression.eval v ⟨[(1, s, s + 2)], [], 0⟩ = v s * v (s + 2) := by
    intro v
    simp [Expression.eval]
  constructor
  · rintro ⟨v, hagree, hyv, hsat⟩
    have h0 := hsat (.assertZero ((e.scalarMul (-1)).subWitness s)) (by simp)
    have h1 := hsat (.assertZero ⟨[(1, s, s + 1)], [(1, s + 2)], -1⟩) (by simp)
    have h2 := hsat (.assertZero ⟨[(1, s, s + 2)], [], 0⟩) (by simp)
    simp only [SatOpcode] at h0 h1 h2
    rw [heval0 v] at h0
    rw [heval1 v] at h1
    rw [heval2 v] at h2
    rw [hyv] at h1 h2
    have hev : e.eval v = e.eval v0 := Expression.eval_congr hagree
    have hts : v s = -(e.eval v0) := by
      rw [← hev]
      linear_combination -h0
    rcases (is_zero_core (v s) yval).mp ⟨v (s + 1), h1, h2⟩ with ⟨hy1, ht0⟩ | ⟨hy0, htne⟩
    · left
      refine ⟨hy1, ?_⟩
      rw [hts] at ht0
      exact neg_eq_zero.mp ht0
    · right
      refine ⟨hy0, ?_⟩
      intro hcontra
      apply htne
      rw [hts, hcontra, neg_zero]
  · intro hrhs
    have key : ∀ zv : ZMod p, -(e.eval v0) * zv + yval - 1 = 0 → -(e.eval v0) * yval = 0 →
        (∃ v : Witness → ZMod p,
          (∀ u ∈ e.vars, v u = v0 u) ∧ v (s + 2) = yval ∧
          SatAll v [.assertZero ((e.scalarMul (-1)).subWitness s),
            .brillig ⟨[.single (Expression.fromWitness s)], [.simple (s + 1)],
              directiveInvert.byte_code, some Expression.one⟩,
            .assertZero ⟨[(1, s, s + 1)], [(1, s + 2)], -1⟩,
            .assertZero ⟨[(1, s, s + 2)], [], 0⟩]) := by
      intro zv hz1 hz2
      have hss1 : s ≠ s + 1 := by omega
      have hss2 : s ≠ s + 2 := by omega
      have hs12 : s + 1 ≠ s + 2 := by omega
      set v := Function.update (Function.update (Function.update v0 s (-(e.eval v0)))
        (s + 1) zv) (s + 2) yval with hv
      have e0 : v s = -(e.eval v0) := by
        rw [hv, Function.update_noteq hss2, Function.update_noteq hss1,
          Function.update_same]
      have e1 : v (s + 1) = zv := by
        rw [hv, Function.update_noteq hs12, Function.update_same]
      have e2 : v (s + 2) = yval := by
        rw [hv, Function.update_same]
      have hagree : ∀ u ∈ e.vars, v u = v0 u := by
        intro u hu
        have hus : u < s := hvars u hu
        rw [hv, Function.update_noteq (Nat.ne_of_lt (Nat.lt_succ_of_lt
            (Nat.lt_succ_of_lt hus))),
          Function.update_noteq (Nat.ne_of_lt (Nat.lt_succ_of_lt hus)),
          Function.update_noteq (Nat.ne_of_lt hus)]
      refine ⟨v, hagree, e2, ?_⟩
      intro op hop
      simp only [List.mem_cons, List.not_mem_nil, or_false] at hop
      rcases hop with rfl | rfl | rfl | rfl
      · show Expression.eval v ((e.scalarMul (-1)).subWitness s) = 0
        rw [heval0 v, Expression.eval_congr hagree, e0]
        ring
      · trivial
      · show Expression.eval v ⟨[(1, s, s + 1)], [(1, s + 2)], -1⟩ = 0
        rw [heval1 v, e0, e1, e2]
        exact hz1
      · show Expression.eval v ⟨[(1, s, s + 2)], [], 0⟩ = 0
        rw [heval2 v, e0, e2]
        exact hz2
    rcases hrhs with ⟨hy1, he0⟩ | ⟨hy0, hne⟩
    · exact key 0 (by rw [he0, hy1]; ring) (by rw [he0]; ring)
    · have htne : -(e.eval v0) ≠ 0 := neg_ne_zero.mpr hne
      exact key (-(e.eval v0))⁻¹ (by rw [mul_inv_cancel₀ htne, hy0]; ring)
        (by rw [hy0]; ring)

/-- C1: soundness of the `is_zero` gadget over any prime field.  Let `y` be the
returned witness and consider the opcodes emitted by `is_zero(E)` — the Brillig
inversion hint for `z`, the two constraints `AssertZero(t·z + y − 1)` and
`AssertZero(t·y)`, and (when `E` is not already a witness) the reduction
constraint binding the handle `t` to `−E`.  Provided `E`'s witnesses lie below
the allocator cursor (and the cursor has room for the three fresh indices), an
assignment extending a given valuation of `E`'s witnesses and giving `y` the
value `yval` satisfies the emitted opcodes iff `yval = 1` and `E` evaluates to
`0`, or `yval = 0` and `E` evaluates to a non-zero field element. -/
theorem is_zero_soundness {p : Nat} [Fact (Nat.Prime p)] (st : GeneratedAcir (ZMod p))
    (e : Expression (ZMod p)) (v0 : Witness → ZMod p) (yval : ZMod p)
    (hvars : ∀ u ∈ e.vars, u < startIdx st)
    (hroom : startIdx st + 3 ≤ 2 ^ 32) :
    (∃ v : Witness → ZMod p,
        (∀ u ∈ e.vars, v u = v0 u) ∧ v (st.isZero e).1 = yval ∧
        SatAll v ((st.isZero e).2.opcodes.drop st.opcodes.length))
    ↔ ((yval = 1 ∧ e.eval v0 = 0) ∨ (yval = 0 ∧ e.eval v0 ≠ 0)) := by
  rcases htw : e.toWitness with _ | w
  · rcases htw2 : (e.scalarMul (-1)).toWitness with _ | w
    · exact isZero_sat_fresh st e v0 yval htw htw2 hvars hroom
    · obtain ⟨h1, h2, h3⟩ := Expression.toWitness_some htw2
      have hwv : w ∈ e.vars := by
        have hveq : e.vars = [w] := by
          rw [← e.vars_scalarMul (-1)]
          unfold Expression.vars
          rw [h1, h2]
          simp
        rw [hveq]
        simp
      have hc : ∃ c : ZMod p, c ≠ 0 ∧ ∀ vv : Witness → ZMod p, e.eval vv = c * vv w := by
        refine ⟨-1, neg_ne_zero.mpr one_ne_zero, fun vv => ?_⟩
        have hm : (e.scalarMul (-1)).eval vv = vv w := by
          unfold Expression.eval
          rw [h1, h2, h3]
          simp
        rw [Expression.eval_scalarMul] at hm
        linear_combination -hm
      exact isZero_sat_reuse st e w v0 yval (Or.inr ⟨htw, htw2⟩) hc hwv hvars hroom
  · obtain ⟨h1, h2, h3⟩ := Expression.toWitness_some htw
    have hwv : w ∈ e.vars := by
      have hveq : e.vars = [w] := by
        unfold Expression.vars
        rw [h1, h2]
        simp
      rw [hveq]
      simp
    have hc : ∃ c : ZMod p, c ≠ 0 ∧ ∀ vv : Witness → ZMod p, e.eval vv = c * vv w := by
      refine ⟨1, one_ne_zero, fun vv => ?_⟩
      unfold Expression.eval
      rw [h1, h2, h3]
      simp
    exact isZero_sat_reuse st e w v0 yval (Or.inl htw) hc hwv hvars hroom

/-- Witness for C1 over `ZMod 5` with the constant expression `1` (non-zero), a
zero valuation, and `yval = 0`: the emitted constraints are satisfiable with the
returned witness at `0`. -/
theorem is_zero_soundness_witness :
    (∃ v : Witness → ZMod 5,
        (∀ u ∈ (Expression.vars (F := ZMod 5) ⟨[], [], 1⟩), v u = (fun _ => (0 : ZMod 5)) u) ∧
        v ((GeneratedAcir.empty (F := ZMod 5)).isZero ⟨[], [], 1⟩).1 = 0 ∧
        SatAll v (((GeneratedAcir.empty (F := ZMod 5)).isZero ⟨[], [], 1⟩).2.opcodes.drop
          (GeneratedAcir.empty (F := ZMod 5)).opcodes.length))
    ↔ (((0 : ZMod 5) = 1 ∧ Expression.eval (fun _ => (0 : ZMod 5)) ⟨[], [], 1⟩ = 0) ∨
       ((0 : ZMod 5) = 0 ∧ Expression.eval (fun _ => (0 : ZMod 5)) ⟨[], [], 1⟩ ≠ 0)) :=
  is_zero_soundness GeneratedAcir.empty ⟨[], [], 1⟩ (fun _ => 0) 0
    (by simp [Expression.vars]) (by decide)

lemma hornerNat_lt (radix : Nat) (hr : 0 < radix) (l : List Nat) (h : ∀ a ∈ l, a < radix) :
    hornerNat radix l < radix ^ l.length := by
  induction l with
  | nil => simp [hornerNat]
  | cons a rest ih =>
    have ha : a < radix := h a (by simp)
    have hH : hornerNat radix rest < radix ^ rest.length :=
      ih (fun x hx => h x (by simp [hx]))
    simp only [hornerNat, List.length_cons]
    calc a + radix * hornerNat radix rest
        < radix + radix * hornerNat radix rest := by omega
      _ = radix * (hornerNat radix rest + 1) := by ring
      _ ≤ radix * radix ^ rest.length := Nat.mul_le_mul_left _ (by omega)
      _ = radix ^ (rest.length + 1) := (pow_succ' radix _).symm

lemma hornerNat_digit (radix : Nat) (hr : 0 < radix) (l : List Nat) (h : ∀ a ∈ l, a < radix) :
    ∀ i (hi : i < l.length), hornerNat radix l / radix ^ i % radix = l.get ⟨i, hi⟩ := by
  induction l with
  | nil => intro i hi; simp at hi
  | cons a rest ih =>
    intro i hi
    cases i with
    | zero =>
      simp only [hornerNat, pow_zero, Nat.div_one, List.get]
      rw [Nat.add_mul_mod_self_left, Nat.mod_eq_of_lt (h a (by simp))]
    | succ i =>
      have hdiv : (a + radix * hornerNat radix rest) / radix ^ (i + 1) =
          hornerNat radix rest / radix ^ i := by
        rw [pow_succ', ← Nat.div_div_eq_div_mul,
          Nat.add_mul_div_left _ _ hr, Nat.div_eq_of_lt (h a (by simp)), Nat.zero_add]
      simp only [hornerNat]
      rw [hdiv]
      exact ih (fun x hx => h x (by simp [hx])) i (by simpa using hi)

lemma hornerF_cast {p : Nat} [NeZero p] (v : Witness → ZMod p) (radix : Nat)
    (limbs : List Witness) :
    hornerF v radix limbs = ((hornerNat radix (limbs.map (fun l => (v l).val)) : Nat) : ZMod p) := by
  induction limbs with
  | nil => simp [hornerF, hornerNat]
  | cons l rest ih =>
    simp only [hornerF, hornerNat, List.map_cons]
    rw [ih]
    push_cast
    rw [ZMod.natCast_rightInverse (v l)]

namespace GeneratedAcir

lemma allocN_range (st : GeneratedAcir F) (n : Nat) (h : startIdx st + n ≤ 2 ^ 32) :
    (st.allocN n).1 = List.range' (startIdx st) n
    ∧ startIdx (st.allocN n).2 = startIdx st + n := by
  induction n generalizing st with
  | zero => exact ⟨rfl, rfl⟩
  | succ n ih =>
    have hn := st.nextWitnessIndex_startIdx (by omega)
    have hih := ih st.nextWitnessIndex.2 (by rw [hn.2]; omega)
    constructor
    · show st.nextWitnessIndex.1 :: (st.nextWitnessIndex.2.allocN n).1 = _
      rw [hn.1, hih.1, hn.2, List.range'_succ]
    · show startIdx (st.nextWitnessIndex.2.allocN n).2 = _
      rw [hih.2, hn.2]
      omega

lemma radixLoop_desc [FieldOps F] (st : GeneratedAcir F) (limbs : List Witness)
    (bs radix : Nat) (composed : Expression F) (pow : Nat)
    (hbits : bs < FieldOps.maxNumBits F) :
    ∃ cOut : Expression F,
      (st.radixLoop limbs bs radix composed pow).1 = .ok cOut
      ∧ (st.radixLoop limbs bs radix composed pow).2.opcodes =
          st.opcodes ++ limbs.map (fun l => .blackBoxFuncCall (.RANGE ⟨l, bs⟩))
      ∧ ∀ v : Witness → F, cOut.eval v = composed.eval v + (pow : F) * hornerF v radix limbs := by
  induction limbs generalizing st composed pow with
  | nil =>
    refine ⟨composed, rfl, ?_, fun v => by simp [hornerF]⟩
    show st.opcodes = st.opcodes ++ List.map _ []
    simp
  | cons l rest ih =>
    unfold radixLoop
    have hrc : st.rangeConstraint l bs =
        (.ok (), st.pushOpcode (.blackBoxFuncCall (.RANGE ⟨l, bs⟩))) := by
      unfold rangeConstraint
      rw [if_neg (by omega)]
    rw [hrc]
    dsimp only
    obtain ⟨cOut, h1, h2, h3⟩ := ih (st.pushOpcode (.blackBoxFuncCall (.RANGE ⟨l, bs⟩)))
      (composed.addMul ((pow : F)) (Expression.fromWitness l)) (pow * radix)
    refine ⟨cOut, h1, ?_, ?_⟩
    · rw [h2, st.pushOpcode_opcodes]
      simp
    · intro v
      rw [h3 v, Expression.eval_addMul, Expression.eval_fromWitness]
      simp only [hornerF]
      push_cast
      ring

lemma radixLeDecompose_desc [FieldOps F] (st : GeneratedAcir F) (e : Expression F)
    (radix lc bs : Nat) (hpow : 2 ^ bs = radix) (hbits : bs < FieldOps.maxNumBits F)
    (hroom : startIdx st + lc ≤ 2 ^ 32) :
    ∃ (st' : GeneratedAcir F) (composed : Expression F),
      st.radixLeDecompose e radix lc bs = .value (.ok (List.range' (startIdx st) lc), st')
      ∧ st'.opcodes = st.opcodes
          ++ .directive (.toLeRadix e (List.range' (startIdx st) lc) radix)
            :: ((List.range' (startIdx st) lc).map
                  (fun l => .blackBoxFuncCall (.RANGE ⟨l, bs⟩))
              ++ [.assertZero (e.sub composed)])
      ∧ ∀ v : Witness → F, composed.eval v = hornerF v radix (List.range' (startIdx st) lc) := by
  unfold radixLeDecompose
  rw [if_neg (by simp [hpow])]
  dsimp only
  rcases ha : st.allocN lc with ⟨ws, st1⟩
  have har := st.allocN_range lc hroom
  rw [ha] at har
  have hws : ws = List.range' (startIdx st) lc := har.1
  have hops1 : st1.opcodes = st.opcodes := by
    have := st.allocN_opcodes lc
    rw [ha] at this
    exact this
  obtain ⟨cOut, h1, h2, h3⟩ := (st1.pushOpcode (.directive (.toLeRadix e ws radix))).radixLoop_desc
    ws bs radix Expression.zero 1 hbits
  rcases hl : (st1.pushOpcode (.directive (.toLeRadix e ws radix))).radixLoop ws bs radix
      Expression.zero 1 with ⟨res, stL⟩
  rw [hl] at h1 h2
  dsimp only at h1 h2
  rw [h1]
  refine ⟨stL.assertIsZero (e.sub cOut), cOut, by rw [hws], ?_, ?_⟩
  · unfold assertIsZero
    rw [pushOpcode_opcodes, h2, pushOpcode_opcodes, hops1, hws]
    simp
  · intro v
    rw [h3 v, hws]
    simp [Expression.zero, Expression.eval]

end GeneratedAcir

/-- C3 (amended): radix decomposition, under the additional hypothesis that
`radix ^ limb_count` does not exceed the field modulus (without it the digits
are not pinned down — see the counterexample).  With `radix = 2^bit_size` and
`bit_size` below the field width, `radix_le_decompose` returns the `limb_count`
fresh witnesses `startIdx, …, startIdx + limb_count - 1` and emits the
`ToLeRadix` directive, one `RANGE(bit_size)` opcode per limb, and the final
`AssertZero(E − Σ limbᵢ·radixⁱ)`; and in every assignment satisfying the
emitted opcodes in which `E` evaluates to a value below `radix ^ limb_count`,
the limbs recompose to that value over ℕ and each limb is the corresponding
little-endian base-`radix` digit of it. -/
theorem radix_decompose_digits {p : Nat} [NeZero p] (st : GeneratedAcir (ZMod p))
    (e : Expression (ZMod p)) (radix limb_count bit_size : Nat)
    (hpow : 2 ^ bit_size = radix)
    (hbits : bit_size < FieldOps.maxNumBits (ZMod p))
    (hroom : startIdx st + limb_count ≤ 2 ^ 32)
    (hfield : radix ^ limb_count ≤ p) :
    ∃ st' : GeneratedAcir (ZMod p),
      st.radixLeDecompose e radix limb_count bit_size =
        .value (.ok (List.range' (startIdx st) limb_count), st')
      ∧ (∃ composed : Expression (ZMod p),
          st'.opcodes.drop st.opcodes.length =
            .directive (.toLeRadix e (List.range' (startIdx st) limb_count) radix)
              :: ((List.range' (startIdx st) limb_count).map
                    (fun l => .blackBoxFuncCall (.RANGE ⟨l, bit_size⟩))
                ++ [.assertZero (e.sub composed)])
          ∧ ∀ v : Witness → ZMod p,
              composed.eval v = hornerF v radix (List.range' (startIdx st) limb_count))
      ∧ ∀ v : Witness → ZMod p,
          SatAll v (st'.opcodes.drop st.opcodes.length) →
          (e.eval v).val < radix ^ limb_count →
          (hornerNat radix ((List.range' (startIdx st) limb_count).map (fun l => (v l).val))
              = (e.eval v).val
           ∧ ∀ i, i < limb_count →
              (v (startIdx st + i)).val = (e.eval v).val / radix ^ i % radix) := by
  obtain ⟨st', composed, heq, hops, hcomp⟩ :=
    st.radixLeDecompose_desc e radix limb_count bit_size hpow hbits hroom
  have hdrop : st'.opcodes.drop st.opcodes.length =
      .directive (.toLeRadix e (List.range' (startIdx st) limb_count) radix)
        :: ((List.range' (startIdx st) limb_count).map
              (fun l => .blackBoxFuncCall (.RANGE ⟨l, bit_size⟩))
          ++ [.assertZero (e.sub composed)]) := by
    rw [hops, List.drop_left]
  refine ⟨st', heq, ⟨composed, hdrop, hcomp⟩, ?_⟩
  intro v hsat hval
  have hrpos : 0 < radix := by
    rw [← hpow]
    exact pow_pos (by norm_num) bit_size
  have hranges : ∀ l ∈ List.range' (startIdx st) limb_count, (v l).val < radix := by
    intro l hl
    have hmem : (.blackBoxFuncCall (.RANGE ⟨l, bit_size⟩) : AcirOpcode (ZMod p)) ∈
        st'.opcodes.drop st.opcodes.length := by
      rw [hdrop]
      exact List.mem_cons_of_mem _ (List.mem_append.mpr (Or.inl (List.mem_map_of_mem _ hl)))
    have hr := hsat _ hmem
    simp only [SatOpcode] at hr
    rwa [hpow] at hr
  have hfin := hsat (.assertZero (e.sub composed)) (by
    rw [hdrop]
    exact List.mem_cons_of_mem _ (List.mem_append.mpr (Or.inr (by simp))))
  simp only [SatOpcode] at hfin
  rw [Expression.eval_sub] at hfin
  have hev : e.eval v = composed.eval v := by linear_combination hfin
  rw [hcomp v, hornerF_cast] at hev
  set vals := (List.range' (startIdx st) limb_count).map (fun l => (v l).val) with hvals
  have hvlt : ∀ a ∈ vals, a < radix := by
    intro a ha
    rcases List.mem_map.mp ha with ⟨l, hl, rfl⟩
    exact hranges l hl
  have hlen : vals.length = limb_count := by
    rw [hvals, List.length_map, List.length_range']
  have hHlt : hornerNat radix vals < radix ^ limb_count := by
    have hh := hornerNat_lt radix hrpos vals hvlt
    rwa [hlen] at hh
  have hHp : hornerNat radix vals < p := lt_of_lt_of_le hHlt hfield
  have hveq : (e.eval v).val = hornerNat radix vals := by
    rw [hev, ZMod.val_cast_of_lt hHp]
  refine ⟨hveq.symm, ?_⟩
  intro i hi
  have hilen : i < vals.length := by rw [hlen]; exact hi
  have hdig := hornerNat_digit radix hrpos vals hvlt i hilen
  have hfix : vals.get ⟨i, hilen⟩ = (v (startIdx st + i)).val := by
    show ((List.range' (startIdx st) limb_count).map (fun l => (v l).val)).get ⟨i, hilen⟩ = _
    rw [List.get_eq_getElem, List.getElem_map, List.getElem_range'_1]
  rw [hveq, hdig, hfix]

lemma maxNumBits_eq (p : Nat) [NeZero p] :
    FieldOps.maxNumBits (ZMod p) = Nat.log2 p + 1 := rfl

lemma maxNumBits_five : FieldOps.maxNumBits (ZMod 5) = 3 := by
  simp [instFieldOpsZMod, Nat.log2]

lemma log2_bn254 : Nat.log2 bn254 = 253 := by
  have h1 : 253 ≤ Nat.log2 bn254 :=
    (Nat.le_log2 (by norm_num [bn254])).mpr (by norm_num [bn254])
  have h2 : Nat.log2 bn254 < 254 :=
    (Nat.log2_lt (by norm_num [bn254])).mpr (by norm_num [bn254])
  omega

lemma maxNumBits_bn254 : FieldOps.maxNumBits (ZMod bn254) = 254 := by
  rw [maxNumBits_eq, log2_bn254]

/-- Counterexample to C3 as stated: over the BN254 scalar field with
`radix = 2^128` and `limb_count = 2` we have `radix^limb_count = 2^256 > p`, and
the assignment placing the low 128 bits of the modulus in limb 0 and its high
bits in limb 1 satisfies every emitted constraint while the expression evaluates
to `0 < radix^limb_count` — yet limb 0 is not the 0-th little-endian digit of
`0` (which is `0`).  The emitted constraints therefore do not force the limbs to
be the digits of the value. -/
theorem radix_digits_counterexample :
    ∃ st' : GeneratedAcir (ZMod bn254),
      (GeneratedAcir.empty (F := ZMod bn254)).radixLeDecompose ⟨[], [], 0⟩ (2 ^ 128) 2 128 =
        .value (.ok [0, 1], st')
      ∧ SatAll vCE (st'.opcodes.drop (GeneratedAcir.empty (F := ZMod bn254)).opcodes.length)
      ∧ (Expression.eval vCE (⟨[], [], 0⟩ : Expression (ZMod bn254))).val = 0
      ∧ (0 : Nat) < (2 ^ 128) ^ 2
      ∧ (vCE 0).val ≠ 0 / (2 ^ 128 : Nat) ^ 0 % 2 ^ 128 := by
  obtain ⟨st', composed, heq, hops, hcomp⟩ :=
    (GeneratedAcir.empty (F := ZMod bn254)).radixLeDecompose_desc ⟨[], [], 0⟩ (2 ^ 128) 2 128
      rfl (by rw [maxNumBits_bn254]; norm_num) (by decide)
  have hr2 : List.range' (startIdx (GeneratedAcir.empty (F := ZMod bn254))) 2 = [0, 1] := rfl
  rw [hr2] at heq hops hcomp
  have hv0 : vCE 0 = ((bn254 % 2 ^ 128 : Nat) : ZMod bn254) := rfl
  have hv1 : vCE 1 = ((bn254 / 2 ^ 128 : Nat) : ZMod bn254) := rfl
  have hm_lt : bn254 % 2 ^ 128 < 2 ^ 128 := Nat.mod_lt _ (by norm_num)
  have hd_lt : bn254 / 2 ^ 128 < 2 ^ 128 := by
    rw [Nat.div_lt_iff_lt_mul (by norm_num : 0 < 2 ^ 128)]
    norm_num [bn254]
  have hv0val : (vCE 0).val = bn254 % 2 ^ 128 := by
    rw [hv0, ZMod.val_cast_of_lt (lt_trans hm_lt (by norm_num [bn254]))]
  have hv1val : (vCE 1).val = bn254 / 2 ^ 128 := by
    rw [hv1, ZMod.val_cast_of_lt (lt_of_lt_of_le hd_lt (by norm_num [bn254]))]
  have heval0 : Expression.eval vCE (⟨[], [], 0⟩ : Expression (ZMod bn254)) = 0 := by
    simp [Expression.eval]
  have hops4 : st'.opcodes.drop (GeneratedAcir.empty (F := ZMod bn254)).opcodes.length =
      [.directive (.toLeRadix ⟨[], [], 0⟩ [0, 1] (2 ^ 128)),
       .blackBoxFuncCall (.RANGE ⟨0, 128⟩),
       .blackBoxFuncCall (.RANGE ⟨1, 128⟩),
       .assertZero (Expression.sub ⟨[], [], 0⟩ composed)] := by
    rw [hops]
    rfl
  refine ⟨st', heq, ?_, by rw [heval0, ZMod.val_zero], by norm_num, ?_⟩
  · intro op hop
    rw [hops4] at hop
    simp only [List.mem_cons, List.not_mem_nil, or_false] at hop
    rcases hop with rfl | rfl | rfl | rfl
    · trivial
    · show (vCE 0).val < 2 ^ 128
      rw [hv0val]
      exact hm_lt
    · show (vCE 1).val < 2 ^ 128
      rw [hv1val]
      exact hd_lt
    · show Expression.eval vCE (Expression.sub ⟨[], [], 0⟩ composed) = 0
      rw [Expression.eval_sub, heval0, hcomp vCE]
      simp only [hornerF, hv0, hv1]
      have hsum : ((bn254 % 2 ^ 128 : Nat) : ZMod bn254)
          + ((2 ^ 128 : Nat) : ZMod bn254)
            * (((bn254 / 2 ^ 128 : Nat) : ZMod bn254)
              + ((2 ^ 128 : Nat) : ZMod bn254) * 0)
          = ((bn254 % 2 ^ 128 + 2 ^ 128 * (bn254 / 2 ^ 128) : Nat) : ZMod bn254) := by
        push_cast
        ring
      rw [hsum, Nat.mod_add_div bn254 (2 ^ 128), ZMod.natCast_self]
      ring
  · rw [hv0val]
    norm_num [bn254]

/-- Witness for C3 (amended) over `ZMod 5`: a binary decomposition of the
constant `3` into two one-bit limbs succeeds (all hypotheses of the amended
claim hold: `2 = 2^1`, `1 < 3 = max_num_bits`, and `2^2 = 4 ≤ 5`). -/
theorem radix_decompose_digits_witness :
    ∃ st' : GeneratedAcir (ZMod 5),
      (GeneratedAcir.empty (F := ZMod 5)).radixLeDecompose ⟨[], [], 3⟩ 2 2 1 =
        .value (.ok (List.range' (startIdx (GeneratedAcir.empty (F := ZMod 5))) 2), st') := by
  obtain ⟨st', h1, _, _⟩ := radix_decompose_digits (GeneratedAcir.empty (F := ZMod 5))
    ⟨[], [], 3⟩ 2 2 1 rfl (by rw [maxNumBits_five]; norm_num) (by decide) (by decide)
  exact ⟨st', h1⟩

lemma locValid_mono {st st' : GeneratedAcir F} {tail : List (AcirOpcode F)}
    (h : st'.opcodes = st.opcodes ++ tail) {loc : OpcodeLocation}
    (hv : locValid st loc) : locValid st' loc := by
  cases loc with
  | acir i =>
    simp only [locValid] at hv ⊢
    rw [h, List.length_append]
    omega
  | brillig ai bi =>
    simp only [locValid, GeneratedAcir.isBrilligAt] at hv ⊢
    rcases hx : st.opcodes[ai]? with _ | op
    · rw [hx] at hv; exact absurd hv (by simp)
    · have hlt : ai < st.opcodes.length := by
        by_contra hlt
        push_neg at hlt
        rw [List.getElem?_eq_none hlt] at hx
        cases hx
      rw [h, List.getElem?_append, if_pos hlt, hx]
      rw [hx] at hv
      exact hv

lemma locValid_congr_opcodes {st st' : GeneratedAcir F} (h : st'.opcodes = st.opcodes)
    (k : OpcodeLocation) (hk : locValid st k) : locValid st' k := by
  cases k with
  | acir i =>
    simp only [locValid] at hk ⊢
    rw [h]
    exact hk
  | brillig ai bi =>
    simp only [locValid, GeneratedAcir.isBrilligAt] at hk ⊢
    rw [h]
    exact hk

lemma locsValid_congr {st st' : GeneratedAcir F} (h1 : st'.opcodes = st.opcodes)
    (h2 : st'.locations = st.locations) (h : LocsValid st) : LocsValid st' := by
  intro p hp
  rw [h2] at hp
  exact locValid_congr_opcodes h1 p.1 (h p hp)

lemma insertLoc_keys {β : Type} (m : List (OpcodeLocation × β)) (k : OpcodeLocation) (v : β) :
    ∀ p ∈ insertLoc m k v, p.1 = k ∨ p.1 ∈ m.map Prod.fst := by
  unfold insertLoc
  split
  · intro p hp
    rcases List.mem_map.mp hp with ⟨q, hq, hpq⟩
    by_cases hqk : q.1 = k
    · rw [if_pos hqk] at hpq
      left
      rw [← hpq]
    · rw [if_neg hqk] at hpq
      right
      rw [← hpq]
      exact List.mem_map_of_mem _ hq
  · intro p hp
    rcases List.mem_append.mp hp with h1 | h2
    · exact Or.inr (List.mem_map_of_mem _ h1)
    · rcases List.mem_singleton.mp h2 with rfl
      exact Or.inl rfl

lemma locsValid_key {st : GeneratedAcir F} (h : LocsValid st) {k : OpcodeLocation}
    (hk : k ∈ st.locations.map Prod.fst) : locValid st k := by
  rcases List.mem_map.mp hk with ⟨q, hq, rfl⟩
  exact h q hq

lemma locStep_pushOpcode (st : GeneratedAcir F) (op : AcirOpcode F) (h : LocsValid st) :
    LocsValid (st.pushOpcode op) := by
  have hops : (st.pushOpcode op).opcodes = st.opcodes ++ [op] := st.pushOpcode_opcodes op
  unfold GeneratedAcir.pushOpcode at hops ⊢
  dsimp only at hops ⊢
  split
  · intro p hp
    exact locValid_mono (show _ = st.opcodes ++ [op] from rfl) (h p hp)
  · intro p hp
    rcases insertLoc_keys _ _ _ p hp with hk | hk
    · rw [hk]
      unfold GeneratedAcir.lastAcirOpcodeLocation locValid
      simp
    · exact locValid_mono (show _ = st.opcodes ++ [op] from rfl) (locsValid_key h hk)

lemma locStep_brillig (st : GeneratedAcir F) (p : Option (Expression F))
    (gb : GeneratedBrillig) (ins : List (BrilligInputs F)) (outs : List BrilligOutputs)
    (h : LocsValid st) : LocsValid (st.brillig p gb ins outs) := by
  unfold GeneratedAcir.brillig
  dsimp only
  set st1 := st.pushOpcode (.brillig ⟨ins, outs, gb.byte_code, p⟩) with hst1
  have h1 : LocsValid st1 := locStep_pushOpcode st _ h
  have hbr : ∀ bi : Nat, locValid st1 (.brillig (st1.opcodes.length - 1) bi) := by
    intro bi
    have hlen : st1.opcodes = st.opcodes ++ [.brillig ⟨ins, outs, gb.byte_code, p⟩] :=
      st.pushOpcode_opcodes _
    simp only [locValid, GeneratedAcir.isBrilligAt, hlen]
    simp [List.getElem?_concat_length]
  have hfold : ∀ (l : List (Nat × CallStack)) (acc : GeneratedAcir F),
      acc.opcodes = st1.opcodes → LocsValid acc →
      (l.foldl (fun acc bl =>
        { acc with locations :=
            insertLoc acc.locations (.brillig (acc.opcodes.length - 1) bl.1) bl.2 }) acc).opcodes
          = st1.opcodes
      ∧ LocsValid (l.foldl (fun acc bl =>
          { acc with locations :=
              insertLoc acc.locations (.brillig (acc.opcodes.length - 1) bl.1) bl.2 }) acc) := by
    intro l
    induction l with
    | nil => exact fun acc ho hv => ⟨ho, hv⟩
    | cons bl rest ih =>
      intro acc ho hv
      rw [List.foldl_cons]
      refine ih _ ho ?_
      intro q hq
      rcases insertLoc_keys _ _ _ q hq with hk | hk
      · rw [hk, ho]
        exact locValid_congr_opcodes rfl _ (hbr bl.1)
      · exact locValid_congr_opcodes rfl _ (locsValid_key hv hk)
  have h2 := hfold gb.locations st1 rfl h1
  have hfold2 : ∀ (l : List (Nat × String)) (acc : GeneratedAcir F),
      acc.opcodes = st1.opcodes → LocsValid acc →
      LocsValid (l.foldl (fun acc bm =>
          { acc with assert_messages :=
              insertLoc acc.assert_messages (.brillig (acc.opcodes.length - 1) bm.1) bm.2 })
        acc) := by
    intro l
    induction l with
    | nil => exact fun acc _ hv => hv
    | cons bm rest ih =>
      intro acc ho hv
      rw [List.foldl_cons]
      refine ih _ ho ?_
      exact locsValid_congr rfl rfl hv
  exact hfold2 gb.assert_messages _ h2.1 h2.2

/-- Validity of the locations map is closed under every primitive builder step
other than `take_opcodes`. -/
lemma locPrimSteps [FieldOps F] : PrimSteps (fun st st' : GeneratedAcir F =>
    LocsValid st → LocsValid st') where
  refl := fun st h => h
  trans := fun h1 h2 h => h2 (h1 h)
  next := fun st h =>
    locsValid_congr (st.nextWitnessIndex_opcodes) (st.nextWitnessIndex_locations) h
  push := fun st op h => locStep_pushOpcode st op h
  brilligStep := fun st p gb ins outs h => locStep_brillig st p gb ins outs h
  setCS := fun st cs h => locsValid_congr rfl rfl h
  pushRet := fun st w h => locsValid_congr rfl rfl h

/-- C8 (amended): after every sequence of builder operations not containing
`take_opcodes`, every `OpcodeLocation` key of the `locations` map refers to a
valid position of the current opcode stream: `Acir i` keys satisfy
`i < opcodes.len()` and Brillig keys point at an embedded foreign-program opcode.
(`take_opcodes` clears the stream but not the map, breaking the invariant.) -/
theorem locations_valid_no_take {F : Type} [CommRing F] [DecidableEq F] [FieldOps F]
    (ops : List (BOp F)) (h : ∀ op ∈ ops, op.isTake = false) :
    LocsValid (runOps (GeneratedAcir.empty (F := F)) ops) := by
  refine locPrimSteps.runOpsStep (GeneratedAcir.empty (F := F)) ops
    (fun op ho => Or.inl (h op ho)) ?_
  intro p hp
  exact absurd hp (List.not_mem_nil p)

/-- Counterexample to C8 as stated: `take_opcodes` clears the opcode stream but
leaves the `locations` map untouched, so after pushing an opcode under a
non-empty call stack and then taking the opcodes, the map holds the key `Acir 0`
while the stream is empty. -/
theorem locations_invalid_after_take :
    ¬ LocsValid (runOps (GeneratedAcir.empty (F := ZMod 5))
      [.setCallStack [3], .assertZeroOp ⟨[], [], 1⟩, .takeOpcodes]) := by
  decide

/-- Witness for C8 (amended): a `take`-free run that stamps a location. -/
theorem locations_valid_no_take_witness :
    LocsValid (runOps (GeneratedAcir.empty (F := ZMod 5))
      [.setCallStack [3], .assertZeroOp ⟨[], [], 1⟩]) :=
  locations_valid_no_take [.setCallStack [3], .assertZeroOp ⟨[], [], 1⟩] (by decide)

/-- C2 (amended): the allocator claim holds as long as fewer than `2^32`
allocations have occurred (the counter is a `u32` and wraps).  For any operation
sequence, writing `k` for the number of `next_witness_index` calls performed so
far (the ghost `total_allocations`): the next `next_witness_index` call returns
exactly `k` — so the `j`-th allocation in any run returns `j - 1`, successive
returns strictly increase, no fresh identifier ever equals an earlier one, and
the first call ever returns `W 0` —, `current_witness_index()` reports the most
recently allocated identifier (`k - 1`) or `W 0` when nothing was allocated, and
the allocation count is monotone along the run. -/
theorem witness_allocator_monotonic {F : Type} [CommRing F] [DecidableEq F] [FieldOps F]
    (ops : List (BOp F))
    (h : (runOps (GeneratedAcir.empty (F := F)) ops).total_allocations < 2 ^ 32) :
    (runOps (GeneratedAcir.empty (F := F)) ops).nextWitnessIndex.1 =
        (runOps (GeneratedAcir.empty (F := F)) ops).total_allocations
    ∧ (runOps (GeneratedAcir.empty (F := F)) ops).currentWitnessIndex =
        (if (runOps (GeneratedAcir.empty (F := F)) ops).total_allocations = 0 then 0
         else (runOps (GeneratedAcir.empty (F := F)) ops).total_allocations - 1)
    ∧ (∀ pre suf, ops = pre ++ suf →
        (runOps (GeneratedAcir.empty (F := F)) pre).total_allocations ≤
          (runOps (GeneratedAcir.empty (F := F)) ops).total_allocations) := by
  have hinv := ctrInv_runOps (F := F) ops
  refine ⟨?_, ?_, ?_⟩
  · have hs := ((runOps (GeneratedAcir.empty (F := F)) ops).nextWitnessIndex_spec hinv).1
    rw [hs]
    exact Nat.mod_eq_of_lt h
  · unfold GeneratedAcir.currentWitnessIndex
    unfold CtrInv at hinv
    rw [hinv]
    rcases ht : (runOps (GeneratedAcir.empty (F := F)) ops).total_allocations with _ | k
    · simp [ctrOf]
    · rw [ht] at h
      simp only [ctrOf, Option.getD_some]
      rw [Nat.mod_eq_of_lt (by omega)]
      simp
  · intro pre suf hps
    rw [hps, runOps_append]
    exact (allocStep_runOps _ suf).1

lemma runOps_replicate_next_total {F : Type} [CommRing F] [DecidableEq F] [FieldOps F]
    (n : Nat) (st : GeneratedAcir F) :
    (runOps st (List.replicate n BOp.nextWitness)).total_allocations =
      st.total_allocations + n := by
  induction n generalizing st with
  | zero => rfl
  | succ n ih =>
    show (runOps (runOp st .nextWitness) (List.replicate n .nextWitness)).total_allocations = _
    rw [ih]
    show st.nextWitnessIndex.2.total_allocations + n = _
    rw [st.nextWitnessIndex_total]
    omega

/-- Counterexample to C2 as stated: the witness counter is a `u32` and wraps.
The very first `next_witness_index` call returns `W 0`, and after `2^32` calls
the next call returns `W 0` again — a freshly allocated identifier equal to a
previously returned one, so the returns are not strictly increasing over every
sequence of builder operations. -/
theorem witness_allocator_wraps :
    (GeneratedAcir.empty (F := ZMod 5)).nextWitnessIndex.1 = 0
    ∧ (runOps (GeneratedAcir.empty (F := ZMod 5))
        (List.replicate (2 ^ 32) BOp.nextWitness)).nextWitnessIndex.1 = 0 := by
  constructor
  · rfl
  · have hinv := ctrInv_runOps (F := ZMod 5) (List.replicate (2 ^ 32) .nextWitness)
    have htot : (runOps (GeneratedAcir.empty (F := ZMod 5))
        (List.replicate (2 ^ 32) BOp.nextWitness)).total_allocations = 2 ^ 32 := by
      rw [runOps_replicate_next_total]
      rfl
    have hs := ((runOps (GeneratedAcir.empty (F := ZMod 5))
        (List.replicate (2 ^ 32) BOp.nextWitness)).nextWitnessIndex_spec hinv).1
    rw [hs, htot]
    norm_num

/-- Witness for C2 (amended) at a concrete run over `ZMod 5`: after two
allocator calls the third returns index 2 and `current_witness_index` reports 1. -/
theorem witness_allocator_monotonic_witness :
    (runOps (GeneratedAcir.empty (F := ZMod 5))
        [BOp.nextWitness, BOp.nextWitness]).nextWitnessIndex.1 = 2
    ∧ (runOps (GeneratedAcir.empty (F := ZMod 5))
        [BOp.nextWitness, BOp.nextWitness]).currentWitnessIndex = 1 := by
  have h := witness_allocator_monotonic (F := ZMod 5)
    [BOp.nextWitness, BOp.nextWitness]
    (by rw [show (runOps (GeneratedAcir.empty (F := ZMod 5))
        [BOp.nextWitness, BOp.nextWitness]).total_allocations = 2 from rfl]; norm_num)
  exact ⟨h.1, h.2.1⟩

/-- C5: `range_constraint(w, num_bits)` fails exactly when
`num_bits ≥ F.max_num_bits()`; in that case it returns
`InvalidRangeConstraint` carrying the current call stack while the builder state
(in particular the opcode stream and the witness counter) is returned unchanged;
otherwise it succeeds, appends exactly one `RANGE` black-box opcode with input
`{witness := w, num_bits}`, and allocates no witness. -/
theorem range_constraint_spec {F : Type} [CommRing F] [DecidableEq F] [FieldOps F]
    (st : GeneratedAcir F) (w : Witness) (num_bits : Nat) :
    (num_bits ≥ FieldOps.maxNumBits F →
      st.rangeConstraint w num_bits =
        (.error (.invalidRangeConstraint (FieldOps.maxNumBits F) st.call_stack), st))
    ∧ (num_bits < FieldOps.maxNumBits F →
      (st.rangeConstraint w num_bits).1 = .ok ()
      ∧ (st.rangeConstraint w num_bits).2.opcodes =
          st.opcodes ++ [.blackBoxFuncCall (.RANGE ⟨w, num_bits⟩)]
      ∧ (st.rangeConstraint w num_bits).2.current_witness_index =
          st.current_witness_index) := by
  constructor
  · intro h
    unfold GeneratedAcir.rangeConstraint
    rw [if_pos h]
  · intro h
    unfold GeneratedAcir.rangeConstraint
    rw [if_neg (by omega)]
    exact ⟨rfl, st.pushOpcode_opcodes _, st.pushOpcode_ctr _⟩

/-- C10: `call_black_box` is not total over its declared input type.  For a
variable-arity black box (here `SchnorrVerify`, whose input-arity table entry is
`None`) no input-count validation happens, yet the builder indexes fixed
positional groups; with fewer input groups than the schema expects the call hits
an out-of-bounds index — a panic — rather than returning the typed
`InternalError`. -/
theorem call_black_box_not_total :
    blackBoxFuncExpectedInputSize .SchnorrVerify = none
    ∧ (GeneratedAcir.empty (F := ZMod 5)).callBlackBox .SchnorrVerify [] [] [] 1 =
        .panicked .indexOOB := by
  exact ⟨rfl, rfl⟩

/-- C6: for a `Keccak256` call (32 outputs), `call_black_box` reads
`var_message_size` from the first `FunctionInput` of the last input group and the
message bytes from the first group, pushing a `Keccak256VariableLength` opcode;
when the input-group list is empty — so no size group exists — it returns the
fatal `MissingArg` internal error naming `message_size` and carrying the current
call stack. -/
theorem keccak_dispatch {F : Type} [CommRing F] [DecidableEq F] [FieldOps F]
    (st : GeneratedAcir F) (inputs : List (List FunctionInput))
    (constant_inputs constant_outputs : List F) :
    (st.callBlackBox .Keccak256 [] constant_inputs constant_outputs 32 =
      .value (.error (.missingArg "" "message_size" st.call_stack), (st.allocN 32).2))
    ∧ (∀ last_group sz g0,
        inputs.getLast? = some last_group → last_group[0]? = some sz →
        inputs[0]? = some g0 →
        st.callBlackBox .Keccak256 inputs constant_inputs constant_outputs 32 =
          .value (.ok (st.allocN 32).1,
            (st.allocN 32).2.pushOpcode (.blackBoxFuncCall
              (.Keccak256VariableLength g0 sz (st.allocN 32).1)))) := by
  constructor
  · show (GeneratedAcir.callBlackBox st .Keccak256 [] _ _ 32) = _
    unfold GeneratedAcir.callBlackBox
    simp only [intrinsicsCheckInputs, intrinsicsCheckOutputs, blackBoxFuncExpectedInputSize,
      blackBoxExpectedOutputSize, List.map_nil, List.sum_nil, if_pos rfl]
    rw [st.allocN_call_stack 32]
    rfl
  · intro last_group sz g0 hlast hsz hg0
    unfold GeneratedAcir.callBlackBox
    simp only [intrinsicsCheckInputs, intrinsicsCheckOutputs, blackBoxFuncExpectedInputSize,
      blackBoxExpectedOutputSize, if_pos rfl]
    unfold buildBlackBoxCall
    rw [hlast]
    simp only [idx, hsz, hg0, Panic.bind]
    rfl

lemma Expression.toWitness_none_of_not_linear {e : Expression F} (h : ¬ e.isLinear) :
    e.toWitness = none := by
  obtain ⟨mt, lc, qc⟩ := e
  cases mt with
  | nil => exact absurd rfl h
  | cons a l => rfl

/-- C4: when `E1` and `E2` are structurally equal and of degree 2 (not linear,
hence not constant), `mul_with_witness(E1, E2)` allocates exactly one fresh
witness `w`, pushes exactly one opcode `AssertZero(E1 - w)` constraining `w` to
equal `E1`, and returns the expression `w·w`. -/
theorem mul_with_witness_square {F : Type} [CommRing F] [DecidableEq F]
    (st : GeneratedAcir F) (lhs rhs : Expression F)
    (hnl : ¬ lhs.isLinear) (hnr : ¬ rhs.isLinear) (heq : lhs = rhs) :
    st.mulWithWitness lhs rhs =
      .value (⟨[(1, st.nextWitnessIndex.1, st.nextWitnessIndex.1)], [], 0⟩,
        st.nextWitnessIndex.2.assertIsZero (lhs.subWitness st.nextWitnessIndex.1)) := by
  have hnc : ¬ lhs.isConst := fun hc => hnl hc.1
  have hnrc : ¬ rhs.isConst := fun hc => hnr hc.1
  have hw : lhs.toWitness = none := Expression.toWitness_none_of_not_linear hnl
  unfold GeneratedAcir.mulWithWitness
  rw [if_neg (by tauto)]
  dsimp only
  rw [if_neg hnl]
  unfold GeneratedAcir.getOrCreateWitness
  rw [hw]
  unfold GeneratedAcir.createWitnessForExpression
  dsimp only
  rw [if_pos heq]
  have hfc : ¬ (Expression.fromWitness (F := F) st.nextWitnessIndex.1).isConst := by
    intro hc
    exact absurd hc.2 (by simp [Expression.fromWitness])
  unfold Expression.mul
  rw [if_neg hfc, if_neg hfc,
    if_pos ⟨rfl, rfl⟩]
  simp [Expression.fromWitness]

/-- Witness for C4 over `ZMod 5`: squaring the degree-2 expression `w₀·w₀`
allocates the single reduction witness `w₀'` (index 0 of the empty builder) and
returns its square. -/
theorem mul_with_witness_square_witness :
    (GeneratedAcir.empty (F := ZMod 5)).mulWithWitness ⟨[(1, 7, 7)], [], 0⟩ ⟨[(1, 7, 7)], [], 0⟩ =
      .value (⟨[(1, 0, 0)], [], 0⟩,
        ((GeneratedAcir.empty (F := ZMod 5)).nextWitnessIndex.2).assertIsZero
          (Expression.subWitness ⟨[(1, 7, 7)], [], 0⟩ 0)) :=
  mul_with_witness_square GeneratedAcir.empty ⟨[(1, 7, 7)], [], 0⟩ ⟨[(1, 7, 7)], [], 0⟩
    (by simp [Expression.isLinear]) (by simp [Expression.isLinear]) rfl

lemma Panic.OnlyOOB.bind {α β : Type} {p : Panic α} {f : α → Panic β}
    (hp : p.OnlyOOB) (hf : ∀ a, (f a).OnlyOOB) : (p.bind f).OnlyOOB := by
  cases p with
  | value a => exact hf a
  | panicked m => exact hp

lemma idx_onlyOOB {α : Type} (l : List α) (i : Nat) : (idx l i).OnlyOOB := by
  unfold idx; cases l[i]? <;> simp [Panic.OnlyOOB]

lemma idx2_onlyOOB {α : Type} (l : List (List α)) (i j : Nat) : (idx2 l i j).OnlyOOB :=
  Panic.OnlyOOB.bind (idx_onlyOOB l i) (fun xs => idx_onlyOOB xs j)

set_option maxHeartbeats 2000000 in
lemma buildBlackBoxCall_onlyOOB [FieldOps F] (cs : CallStack) (f : BlackBoxFunc)
    (inputs : List (List FunctionInput)) (ci co : List F) (outputs : List Witness) :
    (buildBlackBoxCall cs f inputs ci co outputs).OnlyOOB := by
  cases f <;> simp only [buildBlackBoxCall] <;> try split
  all_goals
    repeat' first
      | apply Panic.OnlyOOB.bind
      | apply idx_onlyOOB
      | apply idx2_onlyOOB
      | intro _
      | trivial

/-- C7: arity enforcement in `call_black_box`.  When the input-arity table has
`Some n` and the summed `FunctionInput` count differs from `n`, the call stops
with the input-arity panic before allocating outputs or pushing an opcode;
likewise for a `Some m` output-arity entry and a differing `output_count` (the
input check runs first); and when both counts match their table entries (or the
entries are `None`), no arity panic is raised — the only panic still reachable
is an out-of-bounds group index. -/
theorem black_box_arity_enforcement {F : Type} [CommRing F] [DecidableEq F] [FieldOps F]
    (st : GeneratedAcir F) (f : BlackBoxFunc) (inputs : List (List FunctionInput))
    (constant_inputs constant_outputs : List F) (output_count : Nat) :
    (∀ n, blackBoxFuncExpectedInputSize f = some n → (inputs.map List.length).sum ≠ n →
      st.callBlackBox f inputs constant_inputs constant_outputs output_count =
        .panicked (.inputArity f n ((inputs.map List.length).sum)))
    ∧ (∀ m, (∀ n, blackBoxFuncExpectedInputSize f = some n →
          (inputs.map List.length).sum = n) →
        blackBoxExpectedOutputSize f = some m → output_count ≠ m →
        st.callBlackBox f inputs constant_inputs constant_outputs output_count =
          .panicked (.outputArity f m output_count))
    ∧ ((∀ n, blackBoxFuncExpectedInputSize f = some n →
          (inputs.map List.length).sum = n) →
       (∀ m, blackBoxExpectedOutputSize f = some m → output_count = m) →
       ∀ pm, st.callBlackBox f inputs constant_inputs constant_outputs output_count =
          .panicked pm → pm = .indexOOB) := by
  have hin : ∀ (h : ∀ n, blackBoxFuncExpectedInputSize f = some n →
      (inputs.map List.length).sum = n),
      intrinsicsCheckInputs f ((inputs.map List.length).sum) = none := by
    intro h
    unfold intrinsicsCheckInputs
    cases hf : blackBoxFuncExpectedInputSize f with
    | none => rfl
    | some n => simp [h n hf]
  have hout : ∀ (h : ∀ m, blackBoxExpectedOutputSize f = some m → output_count = m),
      intrinsicsCheckOutputs f output_count = none := by
    intro h
    unfold intrinsicsCheckOutputs
    cases hf : blackBoxExpectedOutputSize f with
    | none => rfl
    | some m => simp [h m hf]
  refine ⟨?_, ?_, ?_⟩
  · intro n hf hne
    unfold GeneratedAcir.callBlackBox
    dsimp only
    have hchk : intrinsicsCheckInputs f ((inputs.map List.length).sum) =
        some (.inputArity f n ((inputs.map List.length).sum)) := by
      unfold intrinsicsCheckInputs
      rw [hf]
      dsimp only
      rw [if_neg (fun h => hne h.symm)]
    rw [hchk]
  · intro m hmatch hf hne
    unfold GeneratedAcir.callBlackBox
    dsimp only
    rw [hin hmatch]
    have hchk : intrinsicsCheckOutputs f output_count =
        some (.outputArity f m output_count) := by
      unfold intrinsicsCheckOutputs
      rw [hf]
      dsimp only
      rw [if_neg (fun h => hne h.symm)]
    rw [hchk]
  · intro h1 h2 pm hpm
    unfold GeneratedAcir.callBlackBox at hpm
    dsimp only at hpm
    rw [hin h1, hout h2] at hpm
    rcases halloc : st.allocN output_count with ⟨outputs, st2⟩
    rw [halloc] at hpm
    dsimp only at hpm
    have hb := buildBlackBoxCall_onlyOOB (F := F) st2.call_stack f
      inputs constant_inputs constant_outputs outputs
    revert hpm
    cases hcall : buildBlackBoxCall st2.call_stack f
        inputs constant_inputs constant_outputs outputs with
    | value r =>
      cases r <;> simp [Panic.bind]
    | panicked m =>
      intro hpm
      simp only [Panic.bind] at hpm
      injection hpm with h
      rw [hcall] at hb
      exact h.symm.trans hb

/-- Witness for C7 over `ZMod 5`: an `AND` call with no inputs panics with the
input-arity error; an `AND` call with the right input count but three outputs
panics with the output-arity error; and a well-formed `AND` call does not panic
at all. -/
theorem black_box_arity_enforcement_witness :
    (GeneratedAcir.empty (F := ZMod 5)).callBlackBox .AND [] [] [] 1 =
      .panicked (.inputArity .AND 2 0)
    ∧ (GeneratedAcir.empty (F := ZMod 5)).callBlackBox .AND [[⟨0, 1⟩], [⟨1, 1⟩]] [] [] 3 =
      .panicked (.outputArity .AND 1 3)
    ∧ ∀ pm, (GeneratedAcir.empty (F := ZMod 5)).callBlackBox .AND
        [[⟨0, 1⟩], [⟨1, 1⟩]] [] [] 1 = .panicked pm → pm = .indexOOB :=
  ⟨(black_box_arity_enforcement GeneratedAcir.empty .AND [] [] [] 1).1 2 rfl (by decide),
   (black_box_arity_enforcement GeneratedAcir.empty .AND [[⟨0, 1⟩], [⟨1, 1⟩]] [] [] 3).2.1 1
     (by intro n hn; cases hn; rfl) rfl (by decide),
   (black_box_arity_enforcement GeneratedAcir.empty .AND [[⟨0, 1⟩], [⟨1, 1⟩]] [] [] 1).2.2
     (by intro n hn; cases hn; rfl) (by intro m hm; cases hm; rfl)⟩

/-- Witness for C6: a concrete `Keccak256` call over `ZMod 5` with a three-byte
message group and a size group. -/
theorem keccak_dispatch_witness :
    (GeneratedAcir.empty (F := ZMod 5)).callBlackBox .Keccak256
        [[⟨40, 8⟩, ⟨41, 8⟩, ⟨42, 8⟩], [⟨43, 32⟩]] [] [] 32 =
      .value (.ok ((GeneratedAcir.empty (F := ZMod 5)).allocN 32).1,
        ((GeneratedAcir.empty (F := ZMod 5)).allocN 32).2.pushOpcode (.blackBoxFuncCall
          (.Keccak256VariableLength [⟨40, 8⟩, ⟨41, 8⟩, ⟨42, 8⟩] ⟨43, 32⟩
            ((GeneratedAcir.empty (F := ZMod 5)).allocN 32).1)))
    ∧ (GeneratedAcir.empty (F := ZMod 5)).callBlackBox .Keccak256 [] [] [] 32 =
      .value (.error (.missingArg "" "message_size" []),
        ((GeneratedAcir.empty (F := ZMod 5)).allocN 32).2) :=
  ⟨(keccak_dispatch GeneratedAcir.empty [[⟨40, 8⟩, ⟨41, 8⟩, ⟨42, 8⟩], [⟨43, 32⟩]] [] []).2
      [⟨43, 32⟩] ⟨43, 32⟩ [⟨40, 8⟩, ⟨41, 8⟩, ⟨42, 8⟩] rfl rfl rfl,
   (keccak_dispatch GeneratedAcir.empty [] [] []).1⟩

/-- Witness for C5 at a concrete field (`ZMod 5`, whose modulus width is 3 bits):
a 3-bit request fails with the diagnostic and an untouched builder, while a 1-bit
request succeeds. -/
theorem range_constraint_spec_witness :
    (GeneratedAcir.empty (F := ZMod 5)).rangeConstraint 0 3 =
      (.error (.invalidRangeConstraint 3 []), GeneratedAcir.empty)
    ∧ ((GeneratedAcir.empty (F := ZMod 5)).rangeConstraint 0 1).1 = .ok () := by
  constructor
  · have h := (range_constraint_spec (GeneratedAcir.empty (F := ZMod 5)) 0 3).1
      (by rw [maxNumBits_five])
    rw [maxNumBits_five] at h
    exact h
  · exact ((range_constraint_spec (GeneratedAcir.empty (F := ZMod 5)) 0 1).2
      (by rw [maxNumBits_five]; omega)).1

end AcirGen
